import Mathlib

/-! Scroll-triggered animation script (`script.js`).

A shallow embedding of the counter animator, the typewriter, the main
visibility observer, the stagger observer and the page-load registration of
`script.js`, followed by theorems about them.

Modelling conventions.
* Arithmetic is exact: integers are `Int`/`Nat`, fractions are `ℚ`, which
  idealises `index * 0.1` and the easing polynomial.  Where a Number leaves
  `parseInt` or is turned into a string it is a double: `roundToDouble`
  rounds to the nearest one and `numberToString` prints it the way the
  language does.
* What `style.borderRight` reads back is the serialisation chosen by the
  host; it is a parameter, `Host`.
* A JavaScript string is a Lean `String`; one `Char` stands for one code unit.
* The DOM is flat: every element owns its class list, its data attributes, its
  text and the two inline style properties the script writes.  The tree is
  only present as the list of descendants used by `querySelectorAll`.
-/

namespace Script

/-! ## DOM elements -/

/-- Value written to `style.animationDelay` by a template literal of the
shape `${x}s`: `x` is either a string (a `data-delay` attribute) or a number. -/
inductive CssTime where
  | text (s : String)
  | seconds (q : ℚ)
  deriving DecidableEq

/-- The part of a DOM element that the script reads or writes. -/
structure Element where
  /-- Tokens of `classList`, in insertion order. -/
  classList : List String := []
  /-- Attribute `data-animation` (`dataset.animation`). -/
  animation : Option String := none
  /-- Attribute `data-delay` (`dataset.delay`). -/
  delay : Option String := none
  /-- Attribute `data-typing` (`dataset.typing`). -/
  typing : Option String := none
  /-- Attribute `data-typing-speed` (`dataset.typingSpeed`). -/
  typingSpeed : Option String := none
  /-- Attribute `data-target` (`getAttribute('data-target')`). -/
  dataTarget : Option String := none
  /-- Property `textContent`. -/
  textContent : String := ""
  /-- Property `style.animationDelay`; `none` while unset. -/
  animationDelay : Option CssTime := none
  /-- The value last assigned to `style.borderRight`; the empty string while
  unset.  What reading it returns is up to the host. -/
  borderRight : String := ""
  deriving DecidableEq

/-! ## JavaScript numbers -/

/-- A Number as far as the script meets one: NaN, a finite integer value, or
an infinity. -/
inductive Number where
  | nan
  | finite (value : Int)
  | infinity (negative : Bool)
  deriving DecidableEq

instance (n : Nat) : OfNat Number n := ⟨Number.finite n⟩

/-- How many low bits of `n` do not fit into the 53 bits of a double
significand; `fuel` bounds the count. -/
def excessBits : Nat → Nat → Nat
  | 0, _ => 0
  | fuel + 1, n => if n < 2 ^ 53 then 0 else excessBits fuel (n / 2) + 1

/-- The double nearest to the natural number `n`, ties going to the even
significand, as a natural number.  A result of `doubleLimit` or more stands
for an overflow. -/
def roundToDouble (n : Nat) : Nat :=
  if n < 2 ^ 53 then n
  else
    let shift := excessBits n n
    let q := n / 2 ^ shift
    let r := n % 2 ^ shift
    let half := 2 ^ (shift - 1)
    if r < half then q * 2 ^ shift
    else if r = half then (if q % 2 = 0 then q else q + 1) * 2 ^ shift
    else (q + 1) * 2 ^ shift

/-- The bound `2 ^ 1024` that every finite double stays below, written with
exponents small enough to be evaluated. -/
def doubleLimit : Nat := (2 ^ 256) ^ 4

/-- The Number for the integer of magnitude `n` and the given sign: the
nearest double, or an infinity beyond the range of doubles. -/
def toNumber (negative : Bool) (n : Nat) : Number :=
  if roundToDouble n < doubleLimit then
    Number.finite (if negative then -(roundToDouble n : Int) else (roundToDouble n : Int))
  else Number.infinity negative

/-- The digits `s` for which `s * 10 ^ e` is a decimal that reads back as the
double `x`, if there are any: the one nearest to `x`, the even one on a tie. -/
def digitsCandidate (x e : Nat) : Option Nat :=
  let lo := x / 10 ^ e
  let hi := lo + 1
  let okLo : Bool := lo ≠ 0 && roundToDouble (lo * 10 ^ e) = x
  let okHi : Bool := roundToDouble (hi * 10 ^ e) = x
  if okLo && okHi then
    if x - lo * 10 ^ e < hi * 10 ^ e - x then some lo
    else if hi * 10 ^ e - x < x - lo * 10 ^ e then some hi
    else if lo % 2 = 0 then some lo else some hi
  else if okLo then some lo
  else if okHi then some hi
  else none

/-- The shortest digits `s` and exponent `e` with `s * 10 ^ e` reading back
as the double `x`, searched from exponent `e` downwards. -/
def shortestDigits (x : Nat) : Nat → Nat × Nat
  | 0 => (x, 0)
  | e + 1 =>
    match digitsCandidate x (e + 1) with
    | some s => (s, e + 1)
    | none => shortestDigits x e

/-- Exponent notation of `s * 10 ^ e`: the first digit of `s`, a point and
the other digits when there are any, then `e+` and the decimal exponent. -/
def exponentForm (s e : Nat) : String :=
  let digits := (Nat.repr s).data
  let mantissa :=
    match digits with
    | [] => ""
    | [d] => String.singleton d
    | d :: rest => String.singleton d ++ "." ++ String.mk rest
  mantissa ++ "e+" ++ Nat.repr (digits.length + e - 1)

/-- The string of a non-negative integer-valued double `x`: its shortest
decimal that reads back as `x`, written out in full below `10 ^ 21` and in
exponent notation from there on. -/
def doubleToString (x : Nat) : String :=
  match shortestDigits x (Nat.repr x).length with
  | (s, e) => if s * 10 ^ e < 10 ^ 21 then Nat.repr (s * 10 ^ e) else exponentForm s e

/-- The string of a Number, as produced by `number + ''`.  A finite value
is printed as the double nearest to it. -/
def numberToString : Number → String
  | Number.nan => "NaN"
  | Number.infinity negative => if negative then "-Infinity" else "Infinity"
  | Number.finite value =>
    (if value < 0 then "-" else "") ++
      (if roundToDouble value.natAbs < doubleLimit then doubleToString (roundToDouble value.natAbs)
       else "Infinity")

/-- Truthiness of a Number: every Number but NaN and zero. -/
def truthy : Number → Bool
  | Number.nan => false
  | Number.finite value => decide (value ≠ 0)
  | Number.infinity _ => true

/-- The comparison `number >= 1000`. -/
def atLeastThousand : Number → Bool
  | Number.nan => false
  | Number.finite value => decide (value ≥ 1000)
  | Number.infinity negative => !negative

/-! ## Counter animation (`animateCounter`, lines 30-51) -/

/-- The arrow function `easeOutCubic = (t) => 1 - Math.pow(1 - t, 3)`. -/
def easeOutCubic (t : ℚ) : ℚ := 1 - (1 - t) ^ 3

/-- The expression `(target >= 1000 ? '+' : '')`. -/
def plusSuffix (target : Number) : String := if atLeastThousand target then "+" else ""

/-- The local `progress` of one frame: `Math.min(elapsed / duration, 1)`. -/
def counterProgress (duration elapsed : ℚ) : ℚ := min (elapsed / duration) 1

/-- The local `current` of one frame for a finite target:
`Math.floor(start + (target - start) * eased)` with `start = 0`. -/
def counterCurrent (target : Int) (duration elapsed : ℚ) : Int :=
  let start : ℚ := 0
  let eased := easeOutCubic (counterProgress duration elapsed)
  Int.floor (start + ((target : ℚ) - start) * eased)

/-- The local `current` of one frame for any target: an infinite target
times `eased` is NaN when `eased` is 0 and an infinity otherwise. -/
def currentValue (target : Number) (duration elapsed : ℚ) : Number :=
  match target with
  | Number.nan => Number.nan
  | Number.finite value => Number.finite (counterCurrent value duration elapsed)
  | Number.infinity negative =>
    let eased := easeOutCubic (counterProgress duration elapsed)
    if eased = 0 then Number.nan
    else if 0 < eased then Number.infinity negative
    else Number.infinity (!negative)

/-- One run of the closure `animate` at the sampled `elapsed` time.  The
result is the element after the frame and whether `requestAnimationFrame`
was called. -/
def animate (target : Number) (duration elapsed : ℚ) (element : Element) : Element × Bool :=
  let progress := counterProgress duration elapsed
  let current := currentValue target duration elapsed
  let element1 := { element with textContent := numberToString current ++ plusSuffix target }
  if progress < 1 then
    (element1, true)
  else
    ({ element1 with textContent := numberToString target ++ plusSuffix target }, false)

/-- The call `animateCounter(element, target, duration)` followed by the
frames the browser delivers: `samples` lists the values of
`Date.now() - startTime` seen by the successive frames, the first one being
the synchronous call `animate()`.  A frame only runs when the previous one
requested it.  The result is the element and whether a frame is still
requested. -/
def animateCounter (target : Number) (duration : ℚ) : List ℚ → Element → Element × Bool
  | [], element => (element, true)
  | elapsed :: rest, element =>
    match animate target duration elapsed element with
    | (element1, true) => animateCounter target duration rest element1
    | (element1, false) => (element1, false)

/-! ## Typewriter (`typeWriter`, lines 54-81) -/

/-- The caret style `'3px solid var(--primary-color)'`. -/
def caret : String := "3px solid var(--primary-color)"

/-- The method `text.charAt(i)`: the one-unit string at index `i`, or the
empty string when `i` is out of range. -/
def charAt (text : String) (i : Nat) : String :=
  match text.data.get? i with
  | some c => String.singleton c
  | none => ""

/-- The delay a timer really waits: `setTimeout` treats a negative delay as 0. -/
def timerDelay (speed : Int) : Nat := speed.toNat

/-- State of one `typeWriter` call: the element, the closure variables `i`
and `blinkCount`, the clock, and the pending timers (each with its due time).
Times are milliseconds since the call. -/
structure Typewriter where
  element : Element
  i : Nat
  blinkCount : Nat
  now : Nat
  /-- Due time of the pending `setTimeout(type, speed)`, if any. -/
  timeout : Option Nat
  /-- Next due time of `blinkInterval` while it has not been cleared. -/
  interval : Option Nat
  deriving DecidableEq

/-- The inner function `type()`. -/
def type (text : String) (speed : Int) (s : Typewriter) : Typewriter :=
  if s.i < text.length then
    { s with
      element := { s.element with textContent := s.element.textContent ++ charAt text s.i }
      i := s.i + 1
      timeout := some (s.now + timerDelay speed) }
  else
    { s with blinkCount := 0, interval := some (s.now + 500) }

/-- The host's CSSOM: `serialize value` is what `element.style.borderRight`
reads back after `value` was assigned to it. -/
structure Host where
  serialize : String → String

/-- A host that reads `style.borderRight` back as it was written. -/
def roundTripHost : Host := { serialize := fun value => value }

/-- A host that serialises `border-right: none`, where every longhand has
its initial value, as `medium`, and reads other values back as written. -/
def initialValueHost : Host :=
  { serialize := fun value => if value = "none" then "medium" else value }

/-- The callback of `blinkInterval`. -/
def blink (host : Host) (s : Typewriter) : Typewriter :=
  let toggled := if host.serialize s.element.borderRight = "none" then caret else "none"
  let blinkCount := s.blinkCount + 1
  if blinkCount ≥ 6 then
    { s with
      element := { s.element with borderRight := "none" }
      blinkCount := blinkCount
      interval := none }
  else
    { s with
      element := { s.element with borderRight := toggled }
      blinkCount := blinkCount
      interval := some (s.now + 500) }

/-- The synchronous part of `typeWriter(element, text, speed)`: reset the
text, show the caret, and call `type()` once. -/
def typeWriter (element : Element) (text : String) (speed : Int) : Typewriter :=
  type text speed
    { element := { element with textContent := "", borderRight := caret }
      i := 0, blinkCount := 0, now := 0, timeout := none, interval := none }

/-- Due time of the next timer callback of the typewriter, if one is pending. -/
def nextDue (s : Typewriter) : Option Nat :=
  match s.timeout with
  | some t => some t
  | none => s.interval

/-- Run the next pending timer callback at its due time; without a pending
timer the state stays as it is. -/
def fire (host : Host) (text : String) (speed : Int) (s : Typewriter) : Typewriter :=
  match s.timeout with
  | some t => type text speed { s with now := t, timeout := none }
  | none =>
    match s.interval with
    | some t => blink host { s with now := t }
    | none => s

/-- Run every timer callback that is due at or before time `t`, in order;
`fuel` bounds the number of callbacks. -/
def runUntil (host : Host) (text : String) (speed : Int) (t : Nat) :
    Nat → Typewriter → Typewriter
  | 0, s => s
  | fuel + 1, s =>
    match nextDue s with
    | some due => if due ≤ t then runUntil host text speed t fuel (fire host text speed s) else s
    | none => s

/-- The typewriter at time `t` after the call, timers firing exactly when
due.  A run has at most `text.length + 7` callbacks. -/
def stateAt (host : Host) (element : Element) (text : String) (speed : Int) (t : Nat) :
    Typewriter :=
  runUntil host text speed t (text.length + 7) (typeWriter element text speed)

/-- The text shown at time `t` after `typeWriter(element, text, speed)`. -/
def textAt (host : Host) (element : Element) (text : String) (speed : Int) (t : Nat) :
    String :=
  (stateAt host element text speed t).element.textContent

/-! ## `parseInt` -/

/-- White space that `parseInt` skips at the start of its argument. -/
def isStrWhiteSpace (c : Char) : Bool :=
  c.toNat ∈ [0x9, 0xA, 0xB, 0xC, 0xD, 0x20, 0xA0, 0x1680, 0x2028, 0x2029, 0x202F, 0x205F,
    0x3000, 0xFEFF] || (0x2000 ≤ c.toNat && c.toNat ≤ 0x200A)

/-- Value of a digit or letter as a numeral digit, without a radix bound. -/
def digitValue (c : Char) : Option Nat :=
  if 48 ≤ c.toNat ∧ c.toNat ≤ 57 then some (c.toNat - 48)
  else if 97 ≤ c.toNat ∧ c.toNat ≤ 122 then some (c.toNat - 87)
  else if 65 ≤ c.toNat ∧ c.toNat ≤ 90 then some (c.toNat - 55)
  else none

/-- Whether `c` is a digit of radix `radix`. -/
def isRadixDigit (radix : Nat) (c : Char) : Bool :=
  match digitValue c with
  | some d => decide (d < radix)
  | none => false

/-- The mathematical integer written by `digits` in radix `radix`. -/
def digitsToNat (radix : Nat) (digits : List Char) : Nat :=
  digits.foldl (fun acc c => acc * radix + (digitValue c).getD 0) 0

/-- The unsigned part of `parseInt`: the longest prefix of radix digits, or
`none` (NaN) when that prefix is empty. -/
def parseDigits (radix : Nat) (cs : List Char) : Option Nat :=
  match cs.takeWhile (isRadixDigit radix) with
  | [] => none
  | d :: ds => some (digitsToNat radix (d :: ds))

/-- The choice of radix when `parseInt` gets no radix argument: 16 after a
`0x` or `0X` prefix, which is removed, and 10 otherwise. -/
def parseUnsigned : List Char → Option Nat
  | '0' :: 'x' :: rest => parseDigits 16 rest
  | '0' :: 'X' :: rest => parseDigits 16 rest
  | cs => parseDigits 10 cs

/-- The Number returned for the parsed magnitude: NaN without digits, else
the double nearest to the signed integer. -/
def parsedNumber (negative : Bool) : Option Nat → Number
  | none => Number.nan
  | some n => toNumber negative n

/-- The one-argument call `parseInt(string)`. -/
def parseInt (string : String) : Number :=
  match string.data.dropWhile isStrWhiteSpace with
  | '-' :: rest => parsedNumber true (parseUnsigned rest)
  | '+' :: rest => parsedNumber false (parseUnsigned rest)
  | cs => parsedNumber false (parseUnsigned cs)

/-! ## The page -/

/-- A call of one of the two effect functions made by the main observer. -/
inductive Call where
  | animateCounter (stat : Nat) (target : Number)
  | typeWriter (element : Nat) (text : String) (speed : Number)
  deriving DecidableEq

/-- A `setTimeout` registered by the stagger observer: the callback reveals
`item` with the captured `index`, `delay` milliseconds after the trigger of
`group`. -/
structure Timeout where
  group : Nat
  item : Nat
  index : Nat
  delay : Nat
  deriving DecidableEq

/-- An `IntersectionObserverEntry`, reduced to the fields the script reads. -/
structure Entry where
  target : Nat
  isIntersecting : Bool
  deriving DecidableEq

/-- The document and the module-level state of the script.  Elements are
named by numbers. -/
structure Page where
  /-- All elements of the document, in document order. -/
  ids : List Nat
  elems : Nat → Element
  /-- Descendants of an element, in document order. -/
  descendants : Nat → List Nat
  /-- Targets of `observer`. -/
  observed : List Nat
  /-- Targets of `staggerObserver`. -/
  staggerObserved : List Nat
  /-- Calls of `animateCounter` and `typeWriter` made so far. -/
  calls : List Call
  /-- Timers registered by `staggerObserver` so far. -/
  timeouts : List Timeout

/-- Replace one element of the page. -/
def Page.setElem (p : Page) (id : Nat) (e : Element) : Page :=
  { p with elems := Function.update p.elems id e }

/-- The method `classList.add(token)` for a valid token. -/
def addToken (token : String) (classList : List String) : List String :=
  if token ∈ classList then classList else classList ++ [token]

/-- The tokens `classList.add` rejects with an exception: the empty string
and any string holding ASCII white space. -/
def invalidToken (token : String) : Bool :=
  token.data.isEmpty || token.data.any (fun c => c.toNat ∈ [0x9, 0xA, 0xC, 0xD, 0x20])

/-- Whether an element carries at least one of the given classes (a selector
list of class selectors). -/
def hasAnyClass (e : Element) (classes : List String) : Bool :=
  classes.any (fun c => e.classList.contains c)

/-- The call `element.querySelectorAll(selector)` for a list of class
selectors: the matching descendants in document order. -/
def querySelectorAll (p : Page) (id : Nat) (classes : List String) : List Nat :=
  (p.descendants id).filter (fun d => hasAnyClass (p.elems d) classes)

/-- The method `observe(target)` on a list of targets. -/
def observe (target : Nat) (targets : List Nat) : List Nat :=
  if target ∈ targets then targets else targets ++ [target]

/-- The method `unobserve(target)` on a list of targets. -/
def unobserve (target : Nat) (targets : List Nat) : List Nat :=
  targets.filter (fun t => t ≠ target)

/-! ## Main observer (lines 89-120) -/

/-- Result of running a callback: the page it leaves and whether it ended by
an exception. -/
structure Outcome where
  page : Page
  threw : Bool

/-- The expression `element.dataset.animation || 'fade-in-up'`. -/
def animationType (element : Element) : String :=
  match element.animation with
  | some a => if a = "" then "fade-in-up" else a
  | none => "fade-in-up"

/-- The expression `element.dataset.delay || (index % 6) * 0.1`, as it is
written into the template literal. -/
def delayValue (element : Element) (index : Nat) : CssTime :=
  match element.delay with
  | some d => if d = "" then CssTime.seconds (((index % 6 : Nat) : ℚ) * 0.1) else CssTime.text d
  | none => CssTime.seconds (((index % 6 : Nat) : ℚ) * 0.1)

/-- The expression `parseInt(element.dataset.typingSpeed) || 50`; a missing
attribute reads as `undefined`. -/
def typingSpeedOf (element : Element) : Number :=
  if truthy (parseInt (element.typingSpeed.getD "undefined")) then
    parseInt (element.typingSpeed.getD "undefined")
  else 50

/-- The delay argument of `setTimeout` as the integer the timer receives: a
Number that is not finite converts to 0. -/
def timeoutArgument : Number → Int
  | Number.finite value => value
  | _ => 0

/-- The call `animateCounter(stat, target)` as the observer makes it: the
call is recorded and its synchronous first frame is applied, the clock
standing still at `elapsed = 0`, with the default duration 2000. -/
def startCounter (stat : Nat) (target : Number) (p : Page) : Page :=
  { p.setElem stat (animate target 2000 0 (p.elems stat)).1 with
    calls := p.calls ++ [Call.animateCounter stat target] }

/-- The call `typeWriter(element, text, speed)` as the observer makes it:
the call is recorded and its synchronous part is applied; `typeWriter` only
uses `speed` as a timer delay. -/
def startTypeWriter (id : Nat) (text : String) (speed : Number) (p : Page) : Page :=
  { p.setElem id (typeWriter (p.elems id) text (timeoutArgument speed)).element with
    calls := p.calls ++ [Call.typeWriter id text speed] }

/-- Body of `statNumbers.forEach(stat => ...)`; a missing `data-target`
attribute reads as `null`. -/
def counterStep (p : Page) (stat : Nat) : Page :=
  let target := parseInt ((p.elems stat).dataTarget.getD "null")
  if truthy target ∧ ¬ (p.elems stat).classList.contains "animated" then
    startCounter stat target
      (p.setElem stat
        { p.elems stat with classList := addToken "animated" (p.elems stat).classList })
  else p

/-- The typing branch, `if (element.dataset.typing) { ... }`. -/
def typingStep (p : Page) (id : Nat) : Page :=
  match (p.elems id).typing with
  | some v =>
    if v = "" then p
    else startTypeWriter id (p.elems id).textContent (typingSpeedOf (p.elems id)) p
  | none => p

/-- Body of `entries.forEach((entry, index) => ...)` of the main observer.
The only statement that can throw is `classList.add(animationType)`. -/
def dispatch (index : Nat) (entry : Entry) (p : Page) : Outcome :=
  let element := p.elems entry.target
  if entry.isIntersecting && !(element.classList.contains "animated") then
    let marked := { element with classList := addToken "animated" element.classList }
    let delayed := { marked with animationDelay := some (delayValue marked index) }
    if invalidToken (animationType delayed) then
      { page := p.setElem entry.target delayed, threw := true }
    else
      let revealed :=
        { delayed with classList := addToken (animationType delayed) delayed.classList }
      let p1 := p.setElem entry.target revealed
      let statNumbers := querySelectorAll p1 entry.target ["stat-number"]
      let p2 := statNumbers.foldl counterStep p1
      { page := typingStep p2 entry.target, threw := false }
  else
    { page := p, threw := false }

/-- The loop `entries.forEach(...)` from position `index` on; an exception
ends it. -/
def forEachEntry : Nat → List Entry → Page → Outcome
  | _, [], p => { page := p, threw := false }
  | index, entry :: rest, p =>
    match dispatch index entry p with
    | { page := p1, threw := true } => { page := p1, threw := true }
    | { page := p1, threw := false } => forEachEntry (index + 1) rest p1

/-- The callback of `observer` on one batch of entries. -/
def observerCallback (entries : List Entry) (p : Page) : Outcome :=
  forEachEntry 0 entries p

/-- Successive deliveries of batches to `observer`; an exception ends one
callback, not the following ones. -/
def observerBatches (batches : List (List Entry)) (p : Page) : Page :=
  batches.foldl (fun q entries => (observerCallback entries q).page) p

/-! ## Stagger observer (lines 123-136) -/

/-- The selector list of the stagger observer. -/
def staggerClasses : List String :=
  ["feature-card", "value-card", "service-detail-card", "process-step"]

/-- The timers registered by `items.forEach((item, index) => setTimeout(..., index * 100))`. -/
def staggerTimeouts (group : Nat) (items : List Nat) : List Timeout :=
  items.enum.map (fun x => { group := group, item := x.2, index := x.1, delay := x.1 * 100 })

/-- Body of `entries.forEach(entry => ...)` of the stagger observer. -/
def staggerDispatch (p : Page) (entry : Entry) : Page :=
  if entry.isIntersecting then
    let items := querySelectorAll p entry.target staggerClasses
    { p with
      timeouts := p.timeouts ++ staggerTimeouts entry.target items
      staggerObserved := unobserve entry.target p.staggerObserved }
  else p

/-- The callback of `staggerObserver` on one batch of entries. -/
def staggerCallback (entries : List Entry) (p : Page) : Page :=
  entries.foldl staggerDispatch p

/-- The timer callback of the stagger observer:
`item.classList.add('fade-in-up'); item.style.animationDelay = index * 0.1 + 's'`. -/
def reveal (t : Timeout) (p : Page) : Page :=
  p.setElem t.item
    { p.elems t.item with
      classList := addToken "fade-in-up" (p.elems t.item).classList
      animationDelay := some (CssTime.seconds ((t.index : ℚ) * 0.1)) }

/-! ## Page load (`DOMContentLoaded`, lines 181-189 and 327-331) -/

/-- The selector list of the individually animated elements. -/
def animatedClasses : List String :=
  ["feature-card", "service-detail-card", "value-card", "process-step", "hero-stats",
    "mission-card", "contact-item", "section-header"]

/-- The selector list of the grid containers. -/
def gridClasses : List String :=
  ["features-grid", "values-grid", "services-detail-grid", "process-steps"]

/-- Body of `animatedElements.forEach(el => ...)`. -/
def registerAnimated (p : Page) (id : Nat) : Page :=
  { p.setElem id
      { p.elems id with classList := addToken "animate-on-scroll" (p.elems id).classList } with
    observed := observe id p.observed }

/-- Body of `gridContainers.forEach(container => staggerObserver.observe(container))`. -/
def registerGrid (p : Page) (id : Nat) : Page :=
  { p with staggerObserved := observe id p.staggerObserved }

/-- Body of the loop over `[data-typing]`: the local `text` is read and
never used, the text is cleared, the element is observed. -/
def registerTyping (p : Page) (id : Nat) : Page :=
  let _text := (p.elems id).textContent
  { p.setElem id { p.elems id with textContent := "" } with
    observed := observe id p.observed }

/-- The observer-related parts of the `DOMContentLoaded` handler, in source
order. -/
def domContentLoaded (p : Page) : Page :=
  let animatedElements := p.ids.filter (fun id => hasAnyClass (p.elems id) animatedClasses)
  let p1 := animatedElements.foldl registerAnimated p
  let gridContainers := p1.ids.filter (fun id => hasAnyClass (p1.elems id) gridClasses)
  let p2 := gridContainers.foldl registerGrid p1
  let typingElements := p2.ids.filter (fun id => (p2.elems id).typing.isSome)
  typingElements.foldl registerTyping p2

/-! ## Typewriter: reference states -/

/-- The first `k` units of `text`. -/
def firstChars (text : String) (k : Nat) : String := String.mk (text.data.take k)

/-- The typewriter after the synchronous call and `n` timer callbacks. -/
def afterCallbacks (host : Host) (element : Element) (text : String) (speed : Int) (n : Nat) :
    Typewriter :=
  (fire host text speed)^[n] (typeWriter element text speed)

/-- Closed form of the typewriter once `k` units are typed and the next call
of `type` is pending. -/
def typingState (element : Element) (text : String) (speed : Int) (k : Nat) : Typewriter :=
  { element := { element with textContent := firstChars text k, borderRight := caret }
    i := k
    blinkCount := 0
    now := (k - 1) * timerDelay speed
    timeout := some (k * timerDelay speed)
    interval := none }

/-- The value one callback of the blink interval assigns to
`style.borderRight` when it finds `value` there. -/
def toggleCaret (host : Host) (value : String) : String :=
  if host.serialize value = "none" then caret else "none"

/-- Closed form of the typewriter after `j` callbacks of the blink interval. -/
def blinkState (host : Host) (element : Element) (text : String) (speed : Int) (j : Nat) :
    Typewriter :=
  { element :=
      { element with
        textContent := text
        borderRight := if j = 6 then "none" else (toggleCaret host)^[j] caret }
    i := text.length
    blinkCount := j
    now := text.length * timerDelay speed + 500 * j
    timeout := none
    interval := if j < 6 then some (text.length * timerDelay speed + 500 * (j + 1)) else none }

/-- Number of timer callbacks a typewriter state can still run. -/
def remaining (text : String) (s : Typewriter) : Nat :=
  match s.timeout with
  | some _ => (text.length - s.i) + 7
  | none =>
    match s.interval with
    | some _ => (6 - (s.blinkCount + 1)) + 1
    | none => 0

/-- The page of a dispatch for `target` just after `classList.add(animationType)`:
the entity is marked `animated`, has its animation delay and its reveal class. -/
def afterReveal (p : Page) (index target : Nat) : Page :=
  let marked :=
    { p.elems target with classList := addToken "animated" (p.elems target).classList }
  let delayed := { marked with animationDelay := some (delayValue marked index) }
  p.setElem target
    { delayed with classList := addToken (animationType delayed) delayed.classList }

/-! ## Decimal numerals -/

/-- An ASCII decimal digit. -/
def isDecimalDigit (c : Char) : Prop := 48 ≤ c.toNat ∧ c.toNat ≤ 57

/-- A string that writes a non-negative integer: decimal digits, at least one. -/
def isDecimalNumeral (s : String) : Bool :=
  !s.data.isEmpty && s.data.all (fun c => decide (48 ≤ c.toNat ∧ c.toNat ≤ 57))

/-! ## Batches of the stagger observer -/

/-- Successive deliveries of batches to `staggerObserver`. -/
def staggerBatches (batches : List (List Entry)) (p : Page) : Page :=
  batches.foldl (fun q entries => staggerCallback entries q) p

/-- How often the stagger observer has registered a timer for child number
`index` of `group`. -/
def scheduledCount (p : Page) (group index : Nat) : Nat :=
  p.timeouts.countP (fun t => t.group = group ∧ t.index = index)

/-- A batch that only reports targets observed by `staggerObserver` when it
is delivered. -/
def observedBatch (p : Page) (entries : List Entry) : Prop :=
  ∀ e ∈ entries, e.target ∈ p.staggerObserved

/-- A batch that holds at most one intersecting report per target. -/
def singleReportBatch (entries : List Entry) : Prop :=
  ((entries.filter (fun e => e.isIntersecting)).map (fun e => e.target)).Nodup

/-- Every batch of the sequence only reports targets observed at its
delivery. -/
def observedBatches : Page → List (List Entry) → Prop
  | _, [] => True
  | p, entries :: rest => observedBatch p entries ∧ observedBatches (staggerCallback entries p) rest

/-! ## Example pages -/

/-- A page without elements of interest: every element is blank. -/
def emptyPage : Page :=
  { ids := [], elems := fun _ => {}, descendants := fun _ => [], observed := [],
    staggerObserved := [], calls := [], timeouts := [] }

/-- A page with one element, number 0, carrying `data-typing="value"` and the
text `text`. -/
def typingPage (value text : String) : Page :=
  { emptyPage with
    ids := [0]
    elems := fun _ => { typing := some value, textContent := text } }

/-- A page with a `.hero-stats` element 0 that contains one `.stat-number`
element 1 with `data-target="target"` and the text `"0"`. -/
def statsPage (target : String) : Page :=
  { emptyPage with
    ids := [0, 1]
    elems := fun id =>
      if id = 0 then { classList := ["hero-stats"] }
      else { classList := ["stat-number"], dataTarget := some target, textContent := "0" }
    descendants := fun id => if id = 0 then [1] else [] }

/-- A page with a `.features-grid` element 0 that contains the
`.feature-card` elements 1, 2 and 3. -/
def gridPage : Page :=
  { emptyPage with
    ids := [0, 1, 2, 3]
    elems := fun id =>
      if id = 0 then { classList := ["features-grid"] } else { classList := ["feature-card"] }
    descendants := fun id => if id = 0 then [1, 2, 3] else [] }

/-! # Theorems -/

/-! ## Numbers: lemmas -/

theorem excessBits_quotient (fuel : Nat) :
    ∀ n : Nat, 2 ^ 52 ≤ n → 2 ^ 52 ≤ n / 2 ^ excessBits fuel n := by
  induction fuel with
  | zero =>
    intro n h
    show 2 ^ 52 ≤ n / 2 ^ 0
    rw [Nat.pow_zero, Nat.div_one]
    exact h
  | succ fuel ih =>
    intro n h
    unfold excessBits
    by_cases hn : n < 2 ^ 53
    · rw [if_pos hn, Nat.pow_zero, Nat.div_one]
      exact h
    · rw [if_neg hn]
      have h2 : 2 ^ 52 ≤ n / 2 := by omega
      have := ih (n / 2) h2
      have hd : n / 2 ^ (excessBits fuel (n / 2) + 1) = n / 2 / 2 ^ excessBits fuel (n / 2) := by
        rw [Nat.pow_succ, Nat.mul_comm, Nat.div_div_eq_div_mul]
      rw [hd]
      exact this

theorem excessBits_pos {n : Nat} (h : 2 ^ 53 ≤ n) : 1 ≤ excessBits n n := by
  obtain ⟨m, rfl⟩ : ∃ m, n = m + 1 := ⟨n - 1, by omega⟩
  unfold excessBits
  have hn : ¬ m + 1 < 2 ^ 53 := by omega
  simp only [hn, if_false]
  omega

theorem roundToDouble_of_lt {n : Nat} (h : n < 2 ^ 53) : roundToDouble n = n := by
  unfold roundToDouble
  rw [if_pos h]

theorem roundToDouble_ge {n : Nat} (h : 2 ^ 53 ≤ n) : 2 ^ 53 ≤ roundToDouble n := by
  have hq := excessBits_quotient n n (by omega)
  have hs := excessBits_pos h
  have hpow : 2 ≤ 2 ^ excessBits n n := by
    calc 2 = 2 ^ 1 := rfl
      _ ≤ 2 ^ excessBits n n := Nat.pow_le_pow_right (by decide) hs
  have hbase : 2 ^ 53 ≤ n / 2 ^ excessBits n n * 2 ^ excessBits n n := by
    calc 2 ^ 53 = 2 ^ 52 * 2 := by norm_num
      _ ≤ n / 2 ^ excessBits n n * 2 ^ excessBits n n := Nat.mul_le_mul hq hpow
  have hstep : n / 2 ^ excessBits n n * 2 ^ excessBits n n
      ≤ (n / 2 ^ excessBits n n + 1) * 2 ^ excessBits n n :=
    Nat.mul_le_mul_right _ (Nat.le_succ _)
  unfold roundToDouble
  have hn : ¬ n < 2 ^ 53 := by omega
  rw [if_neg hn]
  simp only
  split_ifs
  · exact hbase
  · exact hbase
  · exact le_trans hbase hstep
  · exact le_trans hbase hstep

theorem roundToDouble_eq_small {x y : Nat} (hx : x < 2 ^ 53) (h : roundToDouble y = x) :
    y = x := by
  by_cases hy : y < 2 ^ 53
  · rw [roundToDouble_of_lt hy] at h
    exact h
  · have := roundToDouble_ge (Nat.le_of_not_lt hy)
    omega

theorem digitsCandidate_sound {x e s : Nat} (h : digitsCandidate x e = some s) :
    roundToDouble (s * 10 ^ e) = x := by
  unfold digitsCandidate at h
  simp only at h
  by_cases h1 : (decide (x / 10 ^ e ≠ 0) && decide (roundToDouble (x / 10 ^ e * 10 ^ e) = x))
      = true
  · by_cases h2 : decide (roundToDouble ((x / 10 ^ e + 1) * 10 ^ e) = x) = true
    · have hlo : roundToDouble (x / 10 ^ e * 10 ^ e) = x := by
        simp only [Bool.and_eq_true, decide_eq_true_eq] at h1
        exact h1.2
      have hhi : roundToDouble ((x / 10 ^ e + 1) * 10 ^ e) = x := by
        simpa using h2
      simp only [h1, h2, Bool.and_self, if_true] at h
      split_ifs at h <;> cases h <;> assumption
    · have hlo : roundToDouble (x / 10 ^ e * 10 ^ e) = x := by
        simp only [Bool.and_eq_true, decide_eq_true_eq] at h1
        exact h1.2
      simp only [h1, h2, Bool.and_false, if_true] at h
      simp at h
      cases h
      exact hlo
  · by_cases h2 : decide (roundToDouble ((x / 10 ^ e + 1) * 10 ^ e) = x) = true
    · have hhi : roundToDouble ((x / 10 ^ e + 1) * 10 ^ e) = x := by
        simpa using h2
      simp only [h1, h2, Bool.false_and, if_true] at h
      simp at h
      cases h
      exact hhi
    · simp only [h1, h2, Bool.false_and] at h
      simp at h

theorem shortestDigits_small {x : Nat} (hx : x < 2 ^ 53) (fuel : Nat) :
    (shortestDigits x fuel).1 * 10 ^ (shortestDigits x fuel).2 = x := by
  induction fuel with
  | zero => simp [shortestDigits]
  | succ e ih =>
    unfold shortestDigits
    cases hc : digitsCandidate x (e + 1) with
    | none => simpa using ih
    | some s =>
      simp only
      exact roundToDouble_eq_small hx (digitsCandidate_sound hc)

theorem doubleToString_small {x : Nat} (hx : x < 2 ^ 53) : doubleToString x = Nat.repr x := by
  unfold doubleToString
  have h := shortestDigits_small hx (Nat.repr x).length
  rcases hs : shortestDigits x (Nat.repr x).length with ⟨s, e⟩
  rw [hs] at h
  simp only at h ⊢
  have hlt : s * 10 ^ e < 10 ^ 21 := by
    rw [h]
    calc x < 2 ^ 53 := hx
      _ < 10 ^ 21 := by norm_num
  rw [if_pos hlt, h]

theorem numberToString_natCast {T : Nat} (hT : T < 2 ^ 53) :
    numberToString (Number.finite (T : ℤ)) = Nat.repr T := by
  unfold numberToString
  have h0 : ¬ ((T : ℤ) < 0) := by omega
  have hr : roundToDouble (T : ℤ).natAbs = T := by
    rw [Int.natAbs_ofNat]
    exact roundToDouble_of_lt hT
  have hlt : T < doubleLimit := by
    calc T < 2 ^ 53 := hT
      _ < doubleLimit := by unfold doubleLimit; norm_num
  simp only
  rw [if_neg h0, hr, if_pos hlt, doubleToString_small hT]
  exact String.empty_append _

theorem numberToString_small {v : ℤ} (h0 : 0 ≤ v) (hv : v < 2 ^ 53) :
    numberToString (Number.finite v) = toString v := by
  obtain ⟨n, rfl⟩ := Int.eq_ofNat_of_zero_le h0
  have hn : n < 2 ^ 53 := by exact_mod_cast hv
  rw [numberToString_natCast hn]
  rfl

/-! ## Counter animation: lemmas -/

theorem counterProgress_le_one (D e : ℚ) : counterProgress D e ≤ 1 := min_le_right _ _

theorem counterProgress_eq_one {D e : ℚ} (hD : 0 < D) (he : D ≤ e) : counterProgress D e = 1 := by
  unfold counterProgress
  exact min_eq_right ((one_le_div hD).mpr he)

theorem counterProgress_mono {D e1 e2 : ℚ} (hD : 0 < D) (h : e1 ≤ e2) :
    counterProgress D e1 ≤ counterProgress D e2 := by
  unfold counterProgress
  exact min_le_min (div_le_div_of_nonneg_right h hD.le) le_rfl

theorem counterProgress_nonneg {D e : ℚ} (hD : 0 < D) (he : 0 ≤ e) :
    0 ≤ counterProgress D e := by
  unfold counterProgress
  exact le_min (div_nonneg he hD.le) zero_le_one

theorem easeOutCubic_mono {p q : ℚ} (hpq : p ≤ q) (hq : q ≤ 1) :
    easeOutCubic p ≤ easeOutCubic q := by
  unfold easeOutCubic
  have h : (1 - q) ^ 3 ≤ (1 - p) ^ 3 := pow_le_pow_left₀ (by linarith) (by linarith) 3
  linarith

theorem counterCurrent_eq (T : ℤ) (D e : ℚ) :
    counterCurrent T D e = ⌊(T : ℚ) * (1 - (1 - min (e / D) 1) ^ 3)⌋ := by
  simp [counterCurrent, easeOutCubic, counterProgress]

theorem counterCurrent_of_progress_one (T : ℤ) {D e : ℚ} (h : ¬ counterProgress D e < 1) :
    counterCurrent T D e = T := by
  have h1 : counterProgress D e = 1 := le_antisymm (counterProgress_le_one D e) (not_lt.mp h)
  simp [counterCurrent, easeOutCubic, h1]

theorem counterCurrent_bounds {T : ℤ} {D e : ℚ} (hT : 0 ≤ T) (hD : 0 < D) (he : 0 ≤ e) :
    0 ≤ counterCurrent T D e ∧ counterCurrent T D e ≤ T := by
  have hp0 := counterProgress_nonneg hD he
  have hp1 := counterProgress_le_one D e
  have hT' : (0 : ℚ) ≤ (T : ℚ) := by exact_mod_cast hT
  have hc1 : (1 - counterProgress D e) ^ 3 ≤ 1 := pow_le_one₀ (by linarith) (by linarith)
  have hc0 : 0 ≤ (1 - counterProgress D e) ^ 3 := pow_nonneg (by linarith) 3
  unfold counterCurrent easeOutCubic
  simp only [zero_add, sub_zero]
  constructor
  · apply Int.floor_nonneg.mpr
    exact mul_nonneg hT' (by linarith)
  · apply Int.floor_le_iff.mpr
    have : (T : ℚ) * (1 - (1 - counterProgress D e) ^ 3) ≤ (T : ℚ) * 1 :=
      mul_le_mul_of_nonneg_left (by linarith) hT'
    linarith

theorem animate_text (T : ℤ) (D e : ℚ) (el : Element) :
    (animate (Number.finite T) D e el).1.textContent
      = numberToString (Number.finite (counterCurrent T D e)) ++ plusSuffix (Number.finite T) := by
  unfold animate
  by_cases h : counterProgress D e < 1
  · simp [h, currentValue]
  · simp [h, counterCurrent_of_progress_one T h]

theorem animate_stop_text (target : Number) (D e : ℚ) (el : Element)
    (h : (animate target D e el).2 = false) :
    (animate target D e el).1.textContent = numberToString target ++ plusSuffix target := by
  unfold animate at h ⊢
  by_cases hp : counterProgress D e < 1
  · simp [hp] at h
  · simp [hp]

theorem animate_stops (target : Number) {D e : ℚ} (hD : 0 < D) (he : D ≤ e) (el : Element) :
    (animate target D e el).2 = false := by
  have hp : ¬ counterProgress D e < 1 := by rw [counterProgress_eq_one hD he]; exact lt_irrefl 1
  simp [animate, hp]

theorem animateCounter_stop_text (target : Number) (D : ℚ) (samples : List ℚ) (el : Element)
    (h : (animateCounter target D samples el).2 = false) :
    (animateCounter target D samples el).1.textContent
      = numberToString target ++ plusSuffix target := by
  induction samples generalizing el with
  | nil => simp [animateCounter] at h
  | cons e rest ih =>
    unfold animateCounter at h ⊢
    rcases hf : animate target D e el with ⟨el1, b⟩
    cases b
    · simp only [hf]
      have := animate_stop_text target D e el (by rw [hf])
      rw [hf] at this
      exact this
    · simp only [hf] at h ⊢
      exact ih el1 h

theorem animateCounter_stops (target : Number) {D : ℚ} (hD : 0 < D) (pre post : List ℚ) {e : ℚ}
    (he : D ≤ e) (el : Element) :
    (animateCounter target D (pre ++ e :: post) el).2 = false := by
  induction pre generalizing el with
  | nil =>
    have hs := animate_stops target hD he el
    simp only [List.nil_append]
    unfold animateCounter
    rcases hf : animate target D e el with ⟨el1, b⟩
    rw [hf] at hs
    simp only at hs
    subst hs
    rfl
  | cons a pre ih =>
    simp only [List.cons_append]
    unfold animateCounter
    rcases hf : animate target D a el with ⟨el1, b⟩
    cases b
    · rfl
    · exact ih el1

theorem plusSuffix_natCast (T : ℕ) :
    plusSuffix (Number.finite (T : ℤ)) = (if 1000 ≤ T then "+" else "") := by
  unfold plusSuffix atLeastThousand
  by_cases h : 1000 ≤ T
  · have : (T : ℤ) ≥ 1000 := by exact_mod_cast h
    simp [h, this]
  · have : ¬ (T : ℤ) ≥ 1000 := by
      intro h2; exact h (by exact_mod_cast h2)
    simp [h, this]

/-- C1, as stated, fails: the targets `10 ^ 21` and `2 ^ 60` are doubles, and
a frame at `elapsed = duration` shows them as `1e+21+` and
`1152921504606847000+`, not as their decimals followed by `+`. -/
theorem counter_convergence_counterexample :
    roundToDouble (10 ^ 21) = 10 ^ 21 ∧
    (animate (Number.finite ((10 ^ 21 : ℕ) : ℤ)) 2000 2000 {}).1.textContent = "1e+21+" ∧
    (animate (Number.finite ((10 ^ 21 : ℕ) : ℤ)) 2000 2000 {}).1.textContent
      ≠ Nat.repr (10 ^ 21) ++ "+" ∧
    roundToDouble (2 ^ 60) = 2 ^ 60 ∧
    (animate (Number.finite ((2 ^ 60 : ℕ) : ℤ)) 2000 2000 {}).1.textContent
      = "1152921504606847000+" ∧
    (animate (Number.finite ((2 ^ 60 : ℕ) : ℤ)) 2000 2000 {}).1.textContent
      ≠ Nat.repr (2 ^ 60) ++ "+" := by
  have h1 := animate_stop_text (Number.finite ((10 ^ 21 : ℕ) : ℤ)) 2000 2000 {}
    (animate_stops _ (by norm_num) (by norm_num) {})
  have h2 := animate_stop_text (Number.finite ((2 ^ 60 : ℕ) : ℤ)) 2000 2000 {}
    (animate_stops _ (by norm_num) (by norm_num) {})
  rw [h1, h2]
  decide

/-- C1, amended: for every integer target `0 ≤ T < 2 ^ 53` and duration
`D > 0`, a frame of `animateCounter` sampled at an elapsed time `≥ D` leaves
the text equal to the decimal of `T`, followed by `+` exactly when
`T ≥ 1000`, and requests no further frame; the same holds for a whole run
as soon as one of its samples is `≥ D`. -/
theorem counter_convergence (T : ℕ) (D e : ℚ) (hT : T < 2 ^ 53) (hD : 0 < D) (he : D ≤ e)
    (el : Element) :
    (animate (Number.finite (T : ℤ)) D e el).1.textContent
      = Nat.repr T ++ (if 1000 ≤ T then "+" else "") ∧
    (animate (Number.finite (T : ℤ)) D e el).2 = false ∧
    ∀ pre post : List ℚ,
      (animateCounter (Number.finite (T : ℤ)) D (pre ++ e :: post) el).1.textContent
          = Nat.repr T ++ (if 1000 ≤ T then "+" else "") ∧
      (animateCounter (Number.finite (T : ℤ)) D (pre ++ e :: post) el).2 = false := by
  have h2 := animate_stops (Number.finite (T : ℤ)) hD he el
  refine ⟨?_, h2, ?_⟩
  · rw [animate_stop_text _ _ _ _ h2, numberToString_natCast hT, plusSuffix_natCast]
  · intro pre post
    have h3 := animateCounter_stops (Number.finite (T : ℤ)) hD pre post he el
    refine ⟨?_, h3⟩
    rw [animateCounter_stop_text _ _ _ _ h3, numberToString_natCast hT, plusSuffix_natCast]

/-- Witness of the amended C1 at target 1500, duration 2000, elapsed 2000. -/
theorem counter_convergence_witness :
    (animate (Number.finite ((1500 : ℕ) : ℤ)) 2000 2000 {}).1.textContent = "1500+" ∧
    (animate (Number.finite ((1500 : ℕ) : ℤ)) 2000 2000 {}).2 = false := by
  have h := counter_convergence 1500 2000 2000 (by norm_num) (by norm_num) (by norm_num) {}
  refine ⟨?_, h.2.1⟩
  rw [h.1]
  decide

/-- C2. Easing monotonicity: for a target `T ≥ 0`, a duration `D > 0` and
elapsed times `0 ≤ e1 ≤ e2`, the value shown at `e1`, which is
`floor (T * (1 - (1 - min (e1 / D) 1) ^ 3))`, is at most the value shown at
`e2`.  The text of a frame is the string of that value, its decimal when
`T < 2 ^ 53`. -/
theorem easing_monotone (T : ℤ) (D e1 e2 : ℚ) (hT : 0 ≤ T) (hD : 0 < D) (_h1 : 0 ≤ e1)
    (h12 : e1 ≤ e2) (el : Element) :
    counterCurrent T D e1 ≤ counterCurrent T D e2 ∧
    (∀ e : ℚ, (animate (Number.finite T) D e el).1.textContent
        = numberToString (Number.finite (counterCurrent T D e)) ++ plusSuffix (Number.finite T) ∧
      counterCurrent T D e = ⌊(T : ℚ) * (1 - (1 - min (e / D) 1) ^ 3)⌋) ∧
    (T < 2 ^ 53 → ∀ e : ℚ, 0 ≤ e →
      (animate (Number.finite T) D e el).1.textContent
        = toString (counterCurrent T D e) ++ plusSuffix (Number.finite T)) := by
  refine ⟨?_, fun e => ⟨animate_text T D e el, counterCurrent_eq T D e⟩, ?_⟩
  · unfold counterCurrent
    apply Int.floor_le_floor
    have hm := easeOutCubic_mono (counterProgress_mono hD h12) (counterProgress_le_one D e2)
    have hT' : (0 : ℚ) ≤ (T : ℚ) := by exact_mod_cast hT
    simp only [zero_add, sub_zero]
    exact mul_le_mul_of_nonneg_left hm hT'
  · intro hlt e he
    obtain ⟨hb0, hb1⟩ := counterCurrent_bounds (e := e) hT hD he
    rw [animate_text, numberToString_small hb0 (lt_of_le_of_lt hb1 hlt)]

/-- Witness of C2 at target 1500, duration 2000, elapsed times 500 and 1000. -/
theorem easing_monotone_witness :
    counterCurrent 1500 2000 500 ≤ counterCurrent 1500 2000 1000 :=
  (easing_monotone 1500 2000 500 1000 (by norm_num) (by norm_num) (by norm_num)
    (by norm_num) {}).1

/-! ## Typewriter: lemmas -/

theorem caret_ne_none : caret ≠ "none" := by decide

theorem firstChars_zero (text : String) : firstChars text 0 = "" := rfl

theorem firstChars_length (text : String) : firstChars text text.length = text := by
  unfold firstChars
  have h : text.data.take text.length = text.data := List.take_length text.data
  rw [h]

theorem firstChars_succ (text : String) {k : Nat} (hk : k < text.length) :
    firstChars text k ++ charAt text k = firstChars text (k + 1) := by
  have hk' : k < text.data.length := hk
  have hget : text.data[k]? = some text.data[k] := List.getElem?_eq_getElem hk'
  unfold charAt firstChars
  rw [List.get?_eq_getElem?, hget]
  apply String.ext
  rw [String.data_append, List.take_succ, hget]
  rfl

theorem string_eq_empty_of_length {text : String} (h : ¬ 0 < text.length) : text = "" := by
  apply String.ext
  have h0 : text.data.length = 0 := by
    have : text.length = 0 := by omega
    exact this
  exact List.length_eq_zero.mp h0

theorem typeWriter_eq (host : Host) (el : Element) (text : String) (speed : Int) :
    typeWriter el text speed =
      if 0 < text.length then typingState el text speed 1 else blinkState host el text speed 0 := by
  by_cases h : 0 < text.length
  · have hc := firstChars_succ text h
    rw [firstChars_zero] at hc
    simp [typeWriter, type, typingState, h, hc]
  · have ht := string_eq_empty_of_length h
    subst ht
    simp [typeWriter, type, blinkState]

theorem fire_typingState_lt (host : Host) (el : Element) (text : String) (speed : Int) {k : Nat}
    (hk : k < text.length) :
    fire host text speed (typingState el text speed k) = typingState el text speed (k + 1) := by
  simp [fire, type, typingState, hk, firstChars_succ text hk, Nat.add_mul]

theorem fire_typingState_length (host : Host) (el : Element) (text : String) (speed : Int) :
    fire host text speed (typingState el text speed text.length)
      = blinkState host el text speed 0 := by
  simp [fire, type, typingState, blinkState, firstChars_length]

theorem fire_blinkState (host : Host) (el : Element) (text : String) (speed : Int) {j : Nat}
    (hj : j < 6) :
    fire host text speed (blinkState host el text speed j)
      = blinkState host el text speed (j + 1) := by
  have h6 : j ≠ 6 := by omega
  have ht : (toggleCaret host)^[j + 1] caret
      = (if host.serialize ((toggleCaret host)^[j] caret) = "none" then caret else "none") := by
    rw [Function.iterate_succ_apply']
    rfl
  by_cases h5 : j + 1 = 6
  · have h5' : ¬ j + 1 < 6 := by omega
    have hge : j + 1 ≥ 6 := by omega
    simp [fire, blink, blinkState, h6, hj, h5, hge]
  · have h5' : j + 1 < 6 := by omega
    have hge : ¬ j + 1 ≥ 6 := by omega
    simp only [fire, blink, blinkState, h6, hj, h5, h5', hge, if_true, if_false, ht]
    simp
    omega

theorem fire_blinkState_six (host : Host) (el : Element) (text : String) (speed : Int) :
    fire host text speed (blinkState host el text speed 6) = blinkState host el text speed 6 := by
  simp [fire, blinkState]

theorem afterCallbacks_succ (host : Host) (el : Element) (text : String) (speed : Int)
    (n : Nat) :
    afterCallbacks host el text speed (n + 1)
      = fire host text speed (afterCallbacks host el text speed n) := by
  simp [afterCallbacks, Function.iterate_succ_apply']

theorem afterCallbacks_typing (host : Host) (el : Element) (text : String) (speed : Int)
    {k : Nat} (hk : k < text.length) :
    afterCallbacks host el text speed k = typingState el text speed (k + 1) := by
  induction k with
  | zero =>
    have h0 : 0 < text.length := hk
    simp [afterCallbacks, typeWriter_eq host, h0]
  | succ k ih =>
    rw [afterCallbacks_succ, ih (by omega), fire_typingState_lt host el text speed hk]

theorem afterCallbacks_length (host : Host) (el : Element) (text : String) (speed : Int) :
    afterCallbacks host el text speed text.length = blinkState host el text speed 0 := by
  by_cases h : 0 < text.length
  · obtain ⟨m, hm⟩ : ∃ m, text.length = m + 1 := ⟨text.length - 1, by omega⟩
    rw [hm, afterCallbacks_succ, afterCallbacks_typing host el text speed (by omega), ← hm,
      fire_typingState_length]
  · have h0 : text.length = 0 := by omega
    rw [h0]
    simp [afterCallbacks, typeWriter_eq host, h]

theorem afterCallbacks_blink (host : Host) (el : Element) (text : String) (speed : Int)
    {j : Nat} (hj : j ≤ 6) :
    afterCallbacks host el text speed (text.length + j) = blinkState host el text speed j := by
  induction j with
  | zero => exact afterCallbacks_length host el text speed
  | succ j ih =>
    rw [← Nat.add_assoc, afterCallbacks_succ, ih (by omega),
      fire_blinkState host el text speed (by omega)]

theorem afterCallbacks_done (host : Host) (el : Element) (text : String) (speed : Int)
    (m : Nat) :
    afterCallbacks host el text speed (text.length + 6 + m) = blinkState host el text speed 6 := by
  induction m with
  | zero => exact afterCallbacks_blink host el text speed le_rfl
  | succ m ih =>
    rw [← Nat.add_assoc, afterCallbacks_succ, ih, fire_blinkState_six]

theorem toggleCaret_roundTrip (host : Host) (hnone : host.serialize "none" = "none")
    (hcaret : host.serialize caret ≠ "none") (j : Nat) :
    (toggleCaret host)^[j] caret = (if j % 2 = 1 then "none" else caret) := by
  induction j with
  | zero => rfl
  | succ j ih =>
    rw [Function.iterate_succ_apply', ih]
    by_cases hp : j % 2 = 1
    · have : ¬ (j + 1) % 2 = 1 := by omega
      simp [hp, this, toggleCaret, hnone]
    · have : (j + 1) % 2 = 1 := by omega
      simp [hp, this, toggleCaret, hcaret]

theorem toggleCaret_stuck (host : Host) (hnone : host.serialize "none" ≠ "none")
    (hcaret : host.serialize caret ≠ "none") (j : Nat) :
    (toggleCaret host)^[j + 1] caret = "none" := by
  induction j with
  | zero =>
    show toggleCaret host caret = "none"
    simp [toggleCaret, hcaret]
  | succ j ih =>
    rw [Function.iterate_succ_apply', ih]
    simp [toggleCaret, hnone]

/-- The run of the typewriter on any host: each of the `N` typing ticks
appends one unit of `S`; the next tick starts the blink interval; the
interval runs 6 callbacks, each assigning `toggleCaret` of the value it reads
back; then the caret is `none`, the interval is cleared, no timer is pending
and later callbacks change nothing.  On a host that reads `none` back as
`none` the caret alternates; on a host that does not, it stays `none`. -/
theorem typewriter_run (host : Host) (el : Element) (S : String) (speed : Int) :
    (∀ k, k < S.length →
      (afterCallbacks host el S speed k).element.textContent = firstChars S (k + 1) ∧
      (afterCallbacks host el S speed k).element.textContent
        = firstChars S k ++ charAt S k ∧
      (afterCallbacks host el S speed k).i = k + 1 ∧
      (afterCallbacks host el S speed k).element.borderRight = caret ∧
      (afterCallbacks host el S speed k).timeout.isSome = true ∧
      (afterCallbacks host el S speed k).interval = none) ∧
    firstChars S S.length = S ∧
    ((afterCallbacks host el S speed S.length).element.textContent = S ∧
      (afterCallbacks host el S speed S.length).element.borderRight = caret ∧
      (afterCallbacks host el S speed S.length).blinkCount = 0 ∧
      (afterCallbacks host el S speed S.length).timeout = none ∧
      (afterCallbacks host el S speed S.length).interval.isSome = true) ∧
    (S.length = 0 → (typeWriter el S speed).interval.isSome = true ∧
      (typeWriter el S speed).timeout = none) ∧
    (∀ j, 1 ≤ j → j < 6 →
      (afterCallbacks host el S speed (S.length + j)).element.textContent = S ∧
      (afterCallbacks host el S speed (S.length + j)).element.borderRight
        = (toggleCaret host)^[j] caret ∧
      (host.serialize "none" = "none" → host.serialize caret ≠ "none" →
        (afterCallbacks host el S speed (S.length + j)).element.borderRight
          = (if j % 2 = 1 then "none" else caret)) ∧
      (host.serialize "none" ≠ "none" → host.serialize caret ≠ "none" →
        (afterCallbacks host el S speed (S.length + j)).element.borderRight = "none") ∧
      (afterCallbacks host el S speed (S.length + j)).blinkCount = j ∧
      (afterCallbacks host el S speed (S.length + j)).timeout = none ∧
      (afterCallbacks host el S speed (S.length + j)).interval.isSome = true) ∧
    ((afterCallbacks host el S speed (S.length + 6)).element.textContent = S ∧
      (afterCallbacks host el S speed (S.length + 6)).element.borderRight = "none" ∧
      (afterCallbacks host el S speed (S.length + 6)).blinkCount = 6 ∧
      (afterCallbacks host el S speed (S.length + 6)).timeout = none ∧
      (afterCallbacks host el S speed (S.length + 6)).interval = none) ∧
    (∀ m, afterCallbacks host el S speed (S.length + 6 + m)
        = afterCallbacks host el S speed (S.length + 6)) := by
  refine ⟨?_, firstChars_length S, ?_, ?_, ?_, ?_, ?_⟩
  · intro k hk
    rw [afterCallbacks_typing host el S speed hk, firstChars_succ S hk]
    simp [typingState]
  · rw [afterCallbacks_length]
    simp [blinkState]
  · intro h0
    have h := afterCallbacks_length host el S speed
    rw [h0] at h
    have h' : typeWriter el S speed = blinkState host el S speed 0 := h
    rw [h']
    simp [blinkState]
  · intro j h1 h6
    rw [afterCallbacks_blink host el S speed (by omega)]
    have hj : j ≠ 6 := by omega
    have h6' : j < 6 := h6
    have hb : (blinkState host el S speed j).element.borderRight
        = (toggleCaret host)^[j] caret := by
      simp [blinkState, hj]
    refine ⟨by simp [blinkState], hb, ?_, ?_, by simp [blinkState], by simp [blinkState],
      by simp [blinkState, h6']⟩
    · intro hn hc
      rw [hb, toggleCaret_roundTrip host hn hc]
    · intro hn hc
      obtain ⟨m, rfl⟩ : ∃ m, j = m + 1 := ⟨j - 1, by omega⟩
      rw [hb, toggleCaret_stuck host hn hc]
  · rw [afterCallbacks_blink host el S speed le_rfl]
    simp [blinkState]
  · intro m
    rw [afterCallbacks_done, afterCallbacks_blink host el S speed le_rfl]

/-- C3 fails on the code for a host that reads `border-right: none` back as
`medium`: after `"Hi"` is typed and the interval is started, the first
callback switches the caret off and the following ones find `medium`, not
`none`, and switch it off again, so the caret does not toggle; a host that
reads the value back as written shows the caret again at the second
callback. -/
theorem caret_never_returns :
    initialValueHost.serialize "none" = "medium" ∧
    (afterCallbacks initialValueHost {} "Hi" 50 1).element.textContent = "Hi" ∧
    (afterCallbacks initialValueHost {} "Hi" 50 2).element.borderRight = caret ∧
    (afterCallbacks initialValueHost {} "Hi" 50 2).interval = some 600 ∧
    (afterCallbacks initialValueHost {} "Hi" 50 3).element.borderRight = "none" ∧
    (afterCallbacks initialValueHost {} "Hi" 50 4).element.borderRight = "none" ∧
    (afterCallbacks initialValueHost {} "Hi" 50 5).element.borderRight = "none" ∧
    (afterCallbacks initialValueHost {} "Hi" 50 6).element.borderRight = "none" ∧
    (afterCallbacks initialValueHost {} "Hi" 50 7).element.borderRight = "none" ∧
    (afterCallbacks initialValueHost {} "Hi" 50 8).element.borderRight = "none" ∧
    (afterCallbacks initialValueHost {} "Hi" 50 8).blinkCount = 6 ∧
    (afterCallbacks initialValueHost {} "Hi" 50 8).interval = none ∧
    (afterCallbacks roundTripHost {} "Hi" 50 4).element.borderRight = caret := by
  decide

/-! ## Typewriter timing: lemmas -/

theorem nextDue_typingState (el : Element) (text : String) (speed : Int) (k : Nat) :
    nextDue (typingState el text speed k) = some (k * timerDelay speed) := rfl

theorem runUntil_blinkState_text (host : Host) (el : Element) (text : String) (speed : Int)
    (t fuel : Nat) :
    ∀ j, j ≤ 6 →
      (runUntil host text speed t fuel (blinkState host el text speed j)).element.textContent
        = text := by
  induction fuel with
  | zero => intro j _; rfl
  | succ fuel ih =>
    intro j hj
    unfold runUntil
    by_cases h6 : j < 6
    · have hn : nextDue (blinkState host el text speed j)
          = some (text.length * timerDelay speed + 500 * (j + 1)) := by
        simp [nextDue, blinkState, h6]
      rw [hn]
      by_cases hdue : text.length * timerDelay speed + 500 * (j + 1) ≤ t
      · simp only [hdue, if_true]
        rw [fire_blinkState host el text speed h6]
        exact ih (j + 1) (by omega)
      · simp only [hdue, if_false]
        rfl
    · have hn : nextDue (blinkState host el text speed j) = none := by
        simp [nextDue, blinkState, h6]
      rw [hn]
      rfl

theorem div_add_one_of_window {d k t : Nat} (hd : 0 < d) (hk : 1 ≤ k) (hlo : (k - 1) * d ≤ t)
    (hhi : t < k * d) : t / d + 1 = k := by
  have h1 : t / d < k := (Nat.div_lt_iff_lt_mul hd).mpr hhi
  have h2 : k - 1 ≤ t / d := (Nat.le_div_iff_mul_le hd).mpr hlo
  omega

theorem runUntil_typingState_text (host : Host) (el : Element) (text : String) (speed : Int)
    (t : Nat)
    (hd : 0 < timerDelay speed) (fuel : Nat) :
    ∀ k, 1 ≤ k → k ≤ text.length → (k - 1) * timerDelay speed ≤ t →
      text.length - k + 1 ≤ fuel →
      (runUntil host text speed t fuel (typingState el text speed k)).element.textContent
        = firstChars text (min (t / timerDelay speed + 1) text.length) := by
  induction fuel with
  | zero => intro k _ _ _ hf; omega
  | succ fuel ih =>
    intro k hk1 hkN hlo hf
    unfold runUntil
    rw [nextDue_typingState]
    by_cases hdue : k * timerDelay speed ≤ t
    · simp only [hdue, if_true]
      have hq : k ≤ t / timerDelay speed := (Nat.le_div_iff_mul_le hd).mpr hdue
      by_cases hlt : k < text.length
      · rw [fire_typingState_lt host el text speed hlt]
        exact ih (k + 1) (by omega) (by omega) (by simpa using hdue) (by omega)
      · have hk : k = text.length := by omega
        subst hk
        rw [fire_typingState_length,
          runUntil_blinkState_text host el text speed t fuel 0 (by omega)]
        rw [Nat.min_eq_right (by omega), firstChars_length]
    · simp only [hdue, if_false]
      have hw := div_add_one_of_window hd hk1 hlo (by omega)
      rw [hw, Nat.min_eq_left hkN]
      rfl

theorem remaining_fire (host : Host) (text : String) (speed : Int) (s : Typewriter) {due : Nat}
    (h : nextDue s = some due) :
    remaining text (fire host text speed s) + 1 ≤ remaining text s := by
  unfold nextDue at h
  cases hto : s.timeout with
  | some t0 =>
    by_cases hi : s.i < text.length
    · simp [fire, type, remaining, hto, hi]
      omega
    · simp only [fire, type, remaining, hto, hi, if_false]
      cases s.interval <;> simp
  | none =>
    rw [hto] at h
    simp only at h
    by_cases hb : s.blinkCount + 1 ≥ 6
    · simp [fire, blink, remaining, hto, h, hb]
    · simp [fire, blink, remaining, hto, h, hb]
      omega

theorem runUntil_quiescent (host : Host) (text : String) (speed : Int) (t : Nat) (fuel : Nat) :
    ∀ s : Typewriter, remaining text s ≤ fuel →
      ∀ due, nextDue (runUntil host text speed t fuel s) = some due → t < due := by
  induction fuel with
  | zero =>
    intro s hs due hdue
    have hs0 : remaining text s = 0 := by omega
    simp only [runUntil] at hdue
    unfold nextDue at hdue
    unfold remaining at hs0
    cases hto : s.timeout with
    | some t0 => rw [hto] at hs0; simp at hs0
    | none =>
      rw [hto] at hs0 hdue
      simp only at hs0 hdue
      rw [hdue] at hs0
      simp at hs0
  | succ fuel ih =>
    intro s hs due hdue
    unfold runUntil at hdue
    cases hn : nextDue s with
    | none => rw [hn] at hdue; simp only at hdue; rw [hn] at hdue; cases hdue
    | some d0 =>
      rw [hn] at hdue
      simp only at hdue
      by_cases hle : d0 ≤ t
      · simp only [hle, if_true] at hdue
        have := remaining_fire host text speed s hn
        exact ih (fire host text speed s) (by omega) due hdue
      · simp only [hle, if_false] at hdue
        rw [hn] at hdue
        cases hdue
        omega

theorem remaining_typeWriter (host : Host) (el : Element) (text : String) (speed : Int) :
    remaining text (typeWriter el text speed) ≤ text.length + 7 := by
  rw [typeWriter_eq host]
  by_cases h : 0 < text.length
  · simp [h, remaining, typingState]
  · simp [h, remaining, blinkState]

/-- C8, as stated, fails: for `S = "Hi"` and `d = 50` the text is already
`"H"` at time 0 (and at 49 ms), not empty, and it is `"Hi"` at 50 ms, not
`"H"`; no timer due at or before those times is left pending. -/
theorem typewriter_timing_counterexample :
    textAt roundTripHost {} "Hi" 50 0 = "H" ∧ textAt roundTripHost {} "Hi" 50 0 ≠ "" ∧
    textAt roundTripHost {} "Hi" 50 49 = "H" ∧
    textAt roundTripHost {} "Hi" 50 (1 * 50) = "Hi" ∧
    textAt roundTripHost {} "Hi" 50 (1 * 50) ≠ firstChars "Hi" 1 ∧
    nextDue (stateAt roundTripHost {} "Hi" 50 0) = some 50 ∧
    nextDue (stateAt roundTripHost {} "Hi" 50 (1 * 50)) = some 100 := by
  decide

/-- C8, amended: for every string `S` of length `N ≥ 1` and character delay
`d > 0`, timers firing exactly when due, the text at time `k * d` is the
first `k + 1` units of `S` for every `k < N`: the first unit is appended
synchronously at time 0 and each later one after a further wait of `d`.  At
any time `t` the text is the first `min (t / d + 1) N` units, and no timer
due at or before `t` is left pending. -/
theorem typewriter_timing (host : Host) (el : Element) (S : String) (d : Nat) (hN : 1 ≤ S.length)
    (hd : 0 < d) :
    (∀ k, k < S.length → textAt host el S (d : ℤ) (k * d) = firstChars S (k + 1)) ∧
    (∀ t, textAt host el S (d : ℤ) t = firstChars S (min (t / d + 1) S.length)) ∧
    (∀ t due, nextDue (stateAt host el S (d : ℤ) t) = some due → t < due) := by
  have hdelay : timerDelay (d : ℤ) = d := by simp [timerDelay]
  have hd' : 0 < timerDelay (d : ℤ) := by rw [hdelay]; exact hd
  have hall : ∀ t, textAt host el S (d : ℤ) t = firstChars S (min (t / d + 1) S.length) := by
    intro t
    unfold textAt stateAt
    rw [typeWriter_eq host]
    have h0 : 0 < S.length := hN
    simp only [h0, if_true]
    have := runUntil_typingState_text host el S (d : ℤ) t hd' (S.length + 7) 1 le_rfl hN
      (by simp) (by omega)
    rw [hdelay] at this
    exact this
  refine ⟨?_, hall, ?_⟩
  · intro k hk
    rw [hall, Nat.mul_div_cancel k hd, Nat.min_eq_left (by omega)]
  · intro t due
    exact runUntil_quiescent host S (d : ℤ) t (S.length + 7) _
      (remaining_typeWriter host el S (d : ℤ)) due

/-- Witness of the amended C8 at `S = "Hi"`, `d = 50`. -/
theorem typewriter_timing_witness :
    textAt roundTripHost {} "Hi" (50 : ℕ) (0 * 50) = firstChars "Hi" 1 ∧
    textAt roundTripHost {} "Hi" (50 : ℕ) (1 * 50) = firstChars "Hi" 2 :=
  ⟨(typewriter_timing roundTripHost {} "Hi" 50 (by decide) (by decide)).1 0 (by decide),
   (typewriter_timing roundTripHost {} "Hi" 50 (by decide) (by decide)).1 1 (by decide)⟩

/-! ## Main observer: lemmas -/

theorem mem_addToken {c token : String} {classList : List String} :
    c ∈ addToken token classList ↔ c = token ∨ c ∈ classList := by
  unfold addToken
  by_cases h : token ∈ classList
  · simp only [h, if_true]
    constructor
    · intro hc; exact Or.inr hc
    · rintro (rfl | hc)
      · exact h
      · exact hc
  · simp only [h, if_false, List.mem_append, List.mem_singleton]
    tauto

theorem setElem_elems (p : Page) (id : Nat) (e : Element) (x : Nat) :
    (p.setElem id e).elems x = if x = id then e else p.elems x := by
  simp [Page.setElem, Function.update_apply]

theorem animate_classList (T : Number) (D e : ℚ) (el : Element) :
    (animate T D e el).1.classList = el.classList := by
  unfold animate
  simp only
  split_ifs <;> rfl

theorem typeWriter_classList (el : Element) (text : String) (speed : Int) :
    (typeWriter el text speed).element.classList = el.classList := by
  unfold typeWriter type
  split_ifs <;> rfl

theorem startCounter_elems (stat : Nat) (target : Number) (p : Page) (x : Nat) :
    (startCounter stat target p).elems x
      = if x = stat then (animate target 2000 0 (p.elems stat)).1 else p.elems x := by
  simp [startCounter, setElem_elems]

theorem startTypeWriter_elems (id : Nat) (text : String) (speed : Number) (p : Page)
    (x : Nat) :
    (startTypeWriter id text speed p).elems x
      = if x = id then (typeWriter (p.elems id) text (timeoutArgument speed)).element
        else p.elems x := by
  simp [startTypeWriter, setElem_elems]

theorem counterStep_mono (p : Page) (stat x : Nat) {c : String}
    (h : c ∈ (p.elems x).classList) : c ∈ ((counterStep p stat).elems x).classList := by
  unfold counterStep
  simp only
  split_ifs
  · rw [startCounter_elems]
    by_cases hx : x = stat
    · subst hx
      simp only [if_true, animate_classList, setElem_elems]
      exact mem_addToken.mpr (Or.inr h)
    · simp only [hx, if_false, setElem_elems]
      exact h
  · exact h

theorem foldl_counterStep_mono (stats : List Nat) (p : Page) (x : Nat) {c : String}
    (h : c ∈ (p.elems x).classList) :
    c ∈ ((stats.foldl counterStep p).elems x).classList := by
  induction stats generalizing p with
  | nil => exact h
  | cons s rest ih => exact ih (counterStep p s) (counterStep_mono p s x h)

theorem typingStep_mono (p : Page) (id x : Nat) {c : String}
    (h : c ∈ (p.elems x).classList) : c ∈ ((typingStep p id).elems x).classList := by
  unfold typingStep
  split
  · split_ifs
    · exact h
    · rw [startTypeWriter_elems]
      by_cases hx : x = id
      · subst hx
        simp only [if_true, typeWriter_classList]
        exact h
      · simp only [hx, if_false]
        exact h
  · exact h

theorem contains_iff_mem (c : String) (classList : List String) :
    classList.contains c = true ↔ c ∈ classList := by
  simp

theorem dispatch_mono (index : Nat) (entry : Entry) (p : Page) (x : Nat) {c : String}
    (h : c ∈ (p.elems x).classList) :
    c ∈ ((dispatch index entry p).page.elems x).classList := by
  unfold dispatch
  simp only
  split_ifs with hg hinv
  · simp only [setElem_elems]
    by_cases hx : x = entry.target
    · subst hx
      simp only [if_true]
      exact mem_addToken.mpr (Or.inr h)
    · simp only [hx, if_false]
      exact h
  · apply typingStep_mono
    apply foldl_counterStep_mono
    simp only [setElem_elems]
    by_cases hx : x = entry.target
    · subst hx
      simp only [if_true]
      exact mem_addToken.mpr (Or.inr (mem_addToken.mpr (Or.inr h)))
    · simp only [hx, if_false]
      exact h
  · exact h

theorem dispatch_marks (index : Nat) (target : Nat) (p : Page) :
    "animated" ∈ ((dispatch index ⟨target, true⟩ p).page.elems target).classList := by
  by_cases hc : "animated" ∈ (p.elems target).classList
  · exact dispatch_mono index _ p target hc
  · unfold dispatch
    have hg : (true && !((p.elems target).classList.contains "animated")) = true := by
      simpa using hc
    simp only [hg, if_true]
    split_ifs with hinv
    · simp only [setElem_elems, if_true]
      exact mem_addToken.mpr (Or.inl rfl)
    · apply typingStep_mono
      apply foldl_counterStep_mono
      simp only [setElem_elems, if_true]
      exact mem_addToken.mpr (Or.inr (mem_addToken.mpr (Or.inl rfl)))

theorem dispatch_noop (index : Nat) (entry : Entry) (p : Page)
    (h : "animated" ∈ (p.elems entry.target).classList) :
    dispatch index entry p = { page := p, threw := false } := by
  unfold dispatch
  have hg : (entry.isIntersecting && !((p.elems entry.target).classList.contains "animated"))
      = false := by
    simp [h]
  simp only [hg]
  rfl

theorem forEachEntry_mono (entries : List Entry) (index : Nat) (p : Page) (x : Nat) {c : String}
    (h : c ∈ (p.elems x).classList) :
    c ∈ ((forEachEntry index entries p).page.elems x).classList := by
  induction entries generalizing index p with
  | nil => exact h
  | cons e rest ih =>
    unfold forEachEntry
    have hd := dispatch_mono index e p x h
    rcases hq : dispatch index e p with ⟨p1, b⟩
    rw [hq] at hd
    cases b
    · exact ih (index + 1) p1 hd
    · exact hd

theorem observerBatches_mono (batches : List (List Entry)) (p : Page) (x : Nat) {c : String}
    (h : c ∈ (p.elems x).classList) :
    c ∈ ((observerBatches batches p).elems x).classList := by
  induction batches generalizing p with
  | nil => exact h
  | cons b rest ih =>
    exact ih (observerCallback b p).page (forEachEntry_mono b 0 p x h)

/-- C4. Idempotence of dispatch: once the main observer has handled an
intersecting report for an entity `E`, every later intersecting report for
`E`, after any further reports of the same batch and any later batches,
changes nothing at all: no counter and no typewriter is started and the
class list, the animation delay and the text of `E` stay as they are. -/
theorem dispatch_idempotent (p : Page) (E index : Nat) (rest : List Entry)
    (batches : List (List Entry)) (index2 : Nat) :
    dispatch index2 ⟨E, true⟩
        (observerBatches batches
          (forEachEntry (index + 1) rest (dispatch index ⟨E, true⟩ p).page).page)
      = { page := observerBatches batches
            (forEachEntry (index + 1) rest (dispatch index ⟨E, true⟩ p).page).page
          threw := false } := by
  apply dispatch_noop
  apply observerBatches_mono
  apply forEachEntry_mono
  exact dispatch_marks index E p

/-! ## `parseInt` on decimal numerals: lemmas -/

theorem isStrWhiteSpace_digit {c : Char} (h : isDecimalDigit c) : isStrWhiteSpace c = false := by
  obtain ⟨h1, h2⟩ := h
  unfold isStrWhiteSpace
  simp only [List.mem_cons, List.mem_singleton, List.not_mem_nil, or_false, Bool.or_eq_false_iff,
    decide_eq_false_iff_not, Bool.and_eq_false_imp, decide_eq_true_eq]
  constructor
  · omega
  · intro h3; omega

theorem isRadixDigit_digit {c : Char} (h : isDecimalDigit c) : isRadixDigit 10 c = true := by
  obtain ⟨h1, h2⟩ := h
  unfold isRadixDigit digitValue
  simp only [h1, h2, and_self, if_true, decide_eq_true_eq]
  omega

theorem takeWhile_digits {cs : List Char} (h : ∀ c ∈ cs, isDecimalDigit c) :
    cs.takeWhile (isRadixDigit 10) = cs := by
  rw [List.takeWhile_eq_self_iff]
  intro c hc
  exact isRadixDigit_digit (h c hc)

theorem parseDigits_digits {c : Char} {cs : List Char} (h : ∀ d ∈ c :: cs, isDecimalDigit d) :
    parseDigits 10 (c :: cs) = some (digitsToNat 10 (c :: cs)) := by
  unfold parseDigits
  rw [takeWhile_digits h]

theorem parseUnsigned_digits {c : Char} {cs : List Char} (h : ∀ d ∈ c :: cs, isDecimalDigit d) :
    parseUnsigned (c :: cs) = some (digitsToNat 10 (c :: cs)) := by
  unfold parseUnsigned
  split
  · rename_i rest heq
    have hx := h 'x' (by rw [heq]; simp)
    exact absurd hx (by unfold isDecimalDigit; decide)
  · rename_i rest heq
    have hx := h 'X' (by rw [heq]; simp)
    exact absurd hx (by unfold isDecimalDigit; decide)
  · exact parseDigits_digits h

theorem toNumber_small {n : Nat} (h : n < 2 ^ 53) :
    toNumber false n = Number.finite (n : ℤ) := by
  unfold toNumber
  have hlt : roundToDouble n < doubleLimit := by
    rw [roundToDouble_of_lt h]
    calc n < 2 ^ 53 := h
      _ < doubleLimit := by unfold doubleLimit; norm_num
  rw [if_pos hlt, roundToDouble_of_lt h]
  rfl

theorem parseInt_digits (s : String) {c : Char} {cs : List Char} (hs : s.data = c :: cs)
    (h : ∀ d ∈ c :: cs, isDecimalDigit d) :
    parseInt s = toNumber false (digitsToNat 10 s.data) := by
  have hc := h c (List.mem_cons_self _ _)
  have hdrop : s.data.dropWhile isStrWhiteSpace = c :: cs := by
    rw [hs, List.dropWhile_cons, isStrWhiteSpace_digit hc]
    rfl
  unfold parseInt
  rw [hdrop]
  split
  · rename_i rest heq
    have : c = '-' := (List.cons.inj heq).1
    rw [this] at hc
    exact absurd hc (by unfold isDecimalDigit; decide)
  · rename_i rest heq
    have : c = '+' := (List.cons.inj heq).1
    rw [this] at hc
    exact absurd hc (by unfold isDecimalDigit; decide)
  · rw [parseUnsigned_digits h, hs]
    rfl

theorem parseInt_decimalNumeral (s : String) (hs : isDecimalNumeral s = true)
    (hv : digitsToNat 10 s.data < 2 ^ 53) :
    parseInt s = Number.finite (digitsToNat 10 s.data : ℤ) := by
  unfold isDecimalNumeral at hs
  simp only [Bool.and_eq_true, Bool.not_eq_true', List.all_eq_true, decide_eq_true_eq] at hs
  obtain ⟨hne, hall⟩ := hs
  cases hd : s.data with
  | nil => rw [hd] at hne; simp at hne
  | cons c cs =>
    have h : ∀ d ∈ c :: cs, isDecimalDigit d := by
      intro d hdm
      exact hall d (by rw [hd]; exact hdm)
    rw [parseInt_digits s hd h, toNumber_small hv, hd]

/-! ## Counter branch: lemmas -/

theorem animate_dataTarget (T : Number) (D e : ℚ) (el : Element) :
    (animate T D e el).1.dataTarget = el.dataTarget := by
  unfold animate
  simp only
  split_ifs <;> rfl

theorem counterStep_elems_ne (p : Page) {stat x : Nat} (h : x ≠ stat) :
    (counterStep p stat).elems x = p.elems x := by
  unfold counterStep
  simp only
  split_ifs
  · simp [startCounter_elems, setElem_elems, h]
  · rfl

theorem counterStep_dataTarget (p : Page) (stat x : Nat) :
    ((counterStep p stat).elems x).dataTarget = (p.elems x).dataTarget := by
  by_cases hx : x = stat
  · subst hx
    unfold counterStep
    simp only
    split_ifs
    · simp [startCounter_elems, setElem_elems, animate_dataTarget]
    · rfl
  · rw [counterStep_elems_ne p hx]

theorem counterStep_falsy (p : Page) (stat : Nat)
    (h : truthy (parseInt ((p.elems stat).dataTarget.getD "null")) = false) :
    counterStep p stat = p := by
  unfold counterStep
  simp [h]

theorem counterStep_animated_iff (p : Page) (stat : Nat) :
    "animated" ∈ ((counterStep p stat).elems stat).classList ↔
      "animated" ∈ (p.elems stat).classList ∨
        truthy (parseInt ((p.elems stat).dataTarget.getD "null")) = true := by
  unfold counterStep
  simp only
  by_cases hc : "animated" ∈ (p.elems stat).classList
  · have hcond : ¬ (truthy (parseInt ((p.elems stat).dataTarget.getD "null")) = true ∧
        ¬ (p.elems stat).classList.contains "animated" = true) := by
      simp [hc]
    rw [if_neg hcond]
    simp [hc]
  · by_cases ht : truthy (parseInt ((p.elems stat).dataTarget.getD "null")) = true
    · have hcond : (truthy (parseInt ((p.elems stat).dataTarget.getD "null")) = true ∧
          ¬ (p.elems stat).classList.contains "animated" = true) := by
        simp [hc, ht]
      rw [if_pos hcond]
      simp [startCounter_elems, setElem_elems, animate_classList, mem_addToken, ht]
    · have hcond : ¬ (truthy (parseInt ((p.elems stat).dataTarget.getD "null")) = true ∧
          ¬ (p.elems stat).classList.contains "animated" = true) := by
        simp [ht]
      rw [if_neg hcond]
      simp [hc, ht]

theorem counterStep_calls (p : Page) (stat x : Nat) (t : Number) :
    Call.animateCounter x t ∈ (counterStep p stat).calls ↔
      Call.animateCounter x t ∈ p.calls ∨
        (x = stat ∧ "animated" ∉ (p.elems stat).classList ∧
          parseInt ((p.elems stat).dataTarget.getD "null") = t ∧ truthy t = true) := by
  unfold counterStep
  simp only
  by_cases hc : "animated" ∈ (p.elems stat).classList
  · have hcond : ¬ (truthy (parseInt ((p.elems stat).dataTarget.getD "null")) = true ∧
        ¬ (p.elems stat).classList.contains "animated" = true) := by
      simp [hc]
    rw [if_neg hcond]
    simp [hc]
  · by_cases ht : truthy (parseInt ((p.elems stat).dataTarget.getD "null")) = true
    · have hcond : (truthy (parseInt ((p.elems stat).dataTarget.getD "null")) = true ∧
          ¬ (p.elems stat).classList.contains "animated" = true) := by
        simp [hc, ht]
      rw [if_pos hcond]
      simp only [startCounter, Page.setElem, List.mem_append, List.mem_singleton,
        Call.animateCounter.injEq]
      constructor
      · rintro (h | ⟨h1, h2⟩)
        · exact Or.inl h
        · exact Or.inr ⟨h1, hc, h2.symm, by rw [h2]; exact ht⟩
      · rintro (h | ⟨h1, _, h2, _⟩)
        · exact Or.inl h
        · exact Or.inr ⟨h1, h2.symm⟩
    · have hcond : ¬ (truthy (parseInt ((p.elems stat).dataTarget.getD "null")) = true ∧
          ¬ (p.elems stat).classList.contains "animated" = true) := by
        simp [ht]
      rw [if_neg hcond]
      constructor
      · intro h; exact Or.inl h
      · rintro (h | ⟨_, _, h1, h2⟩)
        · exact h
        · rw [← h1] at h2
          exact absurd h2 ht

theorem foldl_counterStep_dataTarget (stats : List Nat) (p : Page) (x : Nat) :
    ((stats.foldl counterStep p).elems x).dataTarget = (p.elems x).dataTarget := by
  induction stats generalizing p with
  | nil => rfl
  | cons s rest ih => rw [List.foldl_cons, ih, counterStep_dataTarget]

theorem foldl_counterStep_falsy (stats : List Nat) (p : Page) (stat : Nat)
    (h : truthy (parseInt ((p.elems stat).dataTarget.getD "null")) = false) :
    (stats.foldl counterStep p).elems stat = p.elems stat := by
  induction stats generalizing p with
  | nil => rfl
  | cons s rest ih =>
    rw [List.foldl_cons]
    by_cases hs : stat = s
    · subst hs
      rw [counterStep_falsy p stat h]
      exact ih p h
    · rw [ih (counterStep p s) (by rw [counterStep_elems_ne p hs]; exact h),
        counterStep_elems_ne p hs]

theorem foldl_counterStep_animated_iff (stats : List Nat) (p : Page) (stat : Nat) :
    "animated" ∈ ((stats.foldl counterStep p).elems stat).classList ↔
      "animated" ∈ (p.elems stat).classList ∨
        (stat ∈ stats ∧ truthy (parseInt ((p.elems stat).dataTarget.getD "null")) = true) := by
  induction stats generalizing p with
  | nil => simp
  | cons s rest ih =>
    rw [List.foldl_cons, ih (counterStep p s), counterStep_dataTarget]
    by_cases hs : stat = s
    · subst hs
      rw [counterStep_animated_iff]
      simp only [List.mem_cons, true_or, true_and]
      constructor
      · rintro ((h | h) | ⟨_, h⟩)
        · exact Or.inl h
        · exact Or.inr h
        · exact Or.inr h
      · rintro (h | h)
        · exact Or.inl (Or.inl h)
        · exact Or.inl (Or.inr h)
    · rw [counterStep_elems_ne p hs]
      simp only [List.mem_cons, hs, false_or]

theorem foldl_counterStep_calls (stats : List Nat) (p : Page) (stat : Nat) (t : Number) :
    Call.animateCounter stat t ∈ (stats.foldl counterStep p).calls ↔
      Call.animateCounter stat t ∈ p.calls ∨
        (stat ∈ stats ∧ "animated" ∉ (p.elems stat).classList ∧
          parseInt ((p.elems stat).dataTarget.getD "null") = t ∧ truthy t = true) := by
  induction stats generalizing p with
  | nil => simp
  | cons s rest ih =>
    rw [List.foldl_cons, ih (counterStep p s), counterStep_dataTarget, counterStep_calls]
    by_cases hs : stat = s
    · subst hs
      rw [counterStep_animated_iff]
      simp only [List.mem_cons, true_or, true_and, not_or]
      constructor
      · rintro ((h | h) | ⟨_, ⟨_, h2⟩, h3, h4⟩)
        · exact Or.inl h
        · exact Or.inr h
        · rw [← h3] at h4
          exact absurd h4 h2
      · rintro (h | h)
        · exact Or.inl (Or.inl h)
        · exact Or.inl (Or.inr h)
    · rw [counterStep_elems_ne p hs]
      simp only [List.mem_cons, hs, false_or, false_and, or_false]

theorem typingStep_elems_ne (p : Page) {id x : Nat} (h : x ≠ id) :
    (typingStep p id).elems x = p.elems x := by
  unfold typingStep
  split
  · split_ifs
    · rfl
    · simp [startTypeWriter_elems, h]
  · rfl

theorem typingStep_counterCalls (p : Page) (id x : Nat) (t : Number) :
    Call.animateCounter x t ∈ (typingStep p id).calls ↔ Call.animateCounter x t ∈ p.calls := by
  unfold typingStep
  split
  · split_ifs
    · rfl
    · simp [startTypeWriter, Page.setElem]
  · rfl

theorem truthy_iff (n : Number) :
    truthy n = true ↔ n ≠ Number.nan ∧ n ≠ Number.finite 0 := by
  cases n with
  | nan => simp [truthy]
  | finite v => simp [truthy]
  | infinity b => simp [truthy]

theorem dispatch_counter (p : Page) (index E stat : Nat)
    (hE : "animated" ∉ (p.elems E).classList)
    (hvalid : invalidToken (animationType (p.elems E)) = false)
    (hstat : stat ∈ querySelectorAll p E ["stat-number"])
    (hne : stat ≠ E)
    (hnew : "animated" ∉ (p.elems stat).classList) :
    (dispatch index ⟨E, true⟩ p).threw = false ∧
    ("animated" ∈ ((dispatch index ⟨E, true⟩ p).page.elems stat).classList ↔
      truthy (parseInt ((p.elems stat).dataTarget.getD "null")) = true) ∧
    (∀ t, Call.animateCounter stat t ∈ (dispatch index ⟨E, true⟩ p).page.calls ↔
      Call.animateCounter stat t ∈ p.calls ∨
        (parseInt ((p.elems stat).dataTarget.getD "null") = t ∧ truthy t = true)) ∧
    (truthy (parseInt ((p.elems stat).dataTarget.getD "null")) = false →
      (dispatch index ⟨E, true⟩ p).page.elems stat = p.elems stat ∧
      ∀ t, Call.animateCounter stat t ∈ (dispatch index ⟨E, true⟩ p).page.calls →
        Call.animateCounter stat t ∈ p.calls) := by
  have hg : (true && !((p.elems E).classList.contains "animated")) = true := by
    simpa using hE
  have hd : dispatch index ⟨E, true⟩ p =
      { page := typingStep
          ((querySelectorAll (afterReveal p index E) E ["stat-number"]).foldl counterStep
            (afterReveal p index E)) E
        threw := false } := by
    have hv : invalidToken (animationType
        { p.elems E with
          classList := addToken "animated" (p.elems E).classList
          animationDelay := some (delayValue
            { p.elems E with classList := addToken "animated" (p.elems E).classList } index) })
          = false := hvalid
    unfold dispatch
    simp only [hg, if_true, hv]
    rfl
  have he1 : (afterReveal p index E).elems stat = p.elems stat := by
    simp [afterReveal, setElem_elems, hne]
  have hc1 : (afterReveal p index E).calls = p.calls := rfl
  have hs1 : stat ∈ querySelectorAll (afterReveal p index E) E ["stat-number"] := by
    unfold querySelectorAll at hstat ⊢
    rw [List.mem_filter] at hstat ⊢
    refine ⟨hstat.1, ?_⟩
    rw [he1]
    exact hstat.2
  generalize afterReveal p index E = p1 at hd he1 hc1 hs1
  rw [hd]
  simp only
  have hanim := foldl_counterStep_animated_iff (querySelectorAll p1 E ["stat-number"]) p1 stat
  have hcalls := foldl_counterStep_calls (querySelectorAll p1 E ["stat-number"]) p1 stat
  rw [he1] at hanim
  simp only [he1, hc1] at hcalls
  refine ⟨trivial, ?_, ?_, ?_⟩
  · rw [typingStep_elems_ne _ hne, hanim]
    simp [hnew, hs1]
  · intro t
    rw [typingStep_counterCalls, hcalls t]
    simp [hnew, hs1]
  · intro hf
    refine ⟨?_, ?_⟩
    · rw [typingStep_elems_ne _ hne, foldl_counterStep_falsy _ p1 stat (by rw [he1]; exact hf), he1]
    · intro t ht
      rw [typingStep_counterCalls, hcalls t] at ht
      rcases ht with ht | ⟨_, _, h1, h2⟩
      · exact ht
      · rw [← h1, hf] at h2
        cases h2

/-- C6, as stated, fails in both directions: a not yet animated
`.stat-number` whose `data-target` is the non-negative integer `0` is neither
marked nor given a counter when its container is dispatched, while the
attributes `-5`, `12px` and `12.5`, none of them a non-negative integer,
mark the sub-entity and start counters with the targets -5, 12 and 12. -/
theorem counter_start_counterexample :
    (isDecimalNumeral "0" = true ∧
      "animated" ∉ ((statsPage "0").elems 1).classList ∧
      1 ∈ querySelectorAll (statsPage "0") 0 ["stat-number"] ∧
      (dispatch 0 ⟨0, true⟩ (statsPage "0")).threw = false ∧
      (dispatch 0 ⟨0, true⟩ (statsPage "0")).page.calls = [] ∧
      "animated" ∉ ((dispatch 0 ⟨0, true⟩ (statsPage "0")).page.elems 1).classList) ∧
    (isDecimalNumeral "-5" = false ∧
      (dispatch 0 ⟨0, true⟩ (statsPage "-5")).page.calls
        = [Call.animateCounter 1 (Number.finite (-5))] ∧
      "animated" ∈ ((dispatch 0 ⟨0, true⟩ (statsPage "-5")).page.elems 1).classList) ∧
    (isDecimalNumeral "12px" = false ∧
      (dispatch 0 ⟨0, true⟩ (statsPage "12px")).page.calls
        = [Call.animateCounter 1 (Number.finite 12)] ∧
      "animated" ∈ ((dispatch 0 ⟨0, true⟩ (statsPage "12px")).page.elems 1).classList) ∧
    (isDecimalNumeral "12.5" = false ∧
      (dispatch 0 ⟨0, true⟩ (statsPage "12.5")).page.calls
        = [Call.animateCounter 1 (Number.finite 12)] ∧
      "animated" ∈ ((dispatch 0 ⟨0, true⟩ (statsPage "12.5")).page.elems 1).classList) := by
  refine ⟨by decide, ⟨by decide, by decide, ?_⟩, ⟨by decide, by decide, ?_⟩,
    ⟨by decide, by decide, ?_⟩⟩
  · exact (dispatch_counter (statsPage "-5") 0 0 1 (by decide) (by decide) (by decide)
      (by decide) (by decide)).2.1.mpr (by decide)
  · exact (dispatch_counter (statsPage "12px") 0 0 1 (by decide) (by decide) (by decide)
      (by decide) (by decide)).2.1.mpr (by decide)
  · exact (dispatch_counter (statsPage "12.5") 0 0 1 (by decide) (by decide) (by decide)
      (by decide) (by decide)).2.1.mpr (by decide)

/-- C6, amended: when an entity `E` is dispatched and its reveal class is a
valid token, then for every nested `.stat-number` that has not yet animated,
the sub-entity is marked `animated` and `animateCounter` is started with
target `t` exactly when `parseInt` of its `data-target` attribute is a truthy
Number `t`, that is neither NaN nor 0; when `parseInt` gives NaN (attribute
absent or without leading digits) or 0, no counter is started, the
sub-entity is left as it was and nothing throws.  On a decimal numeral of
value below `2 ^ 53` `parseInt` gives that value. -/
theorem counter_start_rule (p : Page) (index E stat : Nat)
    (hE : "animated" ∉ (p.elems E).classList)
    (hvalid : invalidToken (animationType (p.elems E)) = false)
    (hstat : stat ∈ querySelectorAll p E ["stat-number"])
    (hne : stat ≠ E)
    (hnew : "animated" ∉ (p.elems stat).classList) :
    (dispatch index ⟨E, true⟩ p).threw = false ∧
    ("animated" ∈ ((dispatch index ⟨E, true⟩ p).page.elems stat).classList ↔
      truthy (parseInt ((p.elems stat).dataTarget.getD "null")) = true) ∧
    (∀ t, Call.animateCounter stat t ∈ (dispatch index ⟨E, true⟩ p).page.calls ↔
      Call.animateCounter stat t ∈ p.calls ∨
        (parseInt ((p.elems stat).dataTarget.getD "null") = t ∧ truthy t = true)) ∧
    (truthy (parseInt ((p.elems stat).dataTarget.getD "null")) = false →
      (dispatch index ⟨E, true⟩ p).page.elems stat = p.elems stat ∧
      ∀ t, Call.animateCounter stat t ∈ (dispatch index ⟨E, true⟩ p).page.calls →
        Call.animateCounter stat t ∈ p.calls) ∧
    (∀ n : Number, truthy n = true ↔ n ≠ Number.nan ∧ n ≠ Number.finite 0) ∧
    (∀ s : String, isDecimalNumeral s = true → digitsToNat 10 s.data < 2 ^ 53 →
      parseInt s = Number.finite (digitsToNat 10 s.data : ℤ)) := by
  obtain ⟨h1, h2, h3, h4⟩ := dispatch_counter p index E stat hE hvalid hstat hne hnew
  exact ⟨h1, h2, h3, h4, truthy_iff, parseInt_decimalNumeral⟩

/-- Witness of the amended C6: a `.stat-number` with `data-target="5"` inside
a dispatched `.hero-stats` element. -/
theorem counter_start_rule_witness :
    (dispatch 0 ⟨0, true⟩ (statsPage "5")).threw = false ∧
    ("animated" ∈ ((dispatch 0 ⟨0, true⟩ (statsPage "5")).page.elems 1).classList ↔
      truthy (parseInt (((statsPage "5").elems 1).dataTarget.getD "null")) = true) :=
  ⟨(counter_start_rule (statsPage "5") 0 0 1 (by decide) (by decide) (by decide) (by decide)
      (by decide)).1,
   (counter_start_rule (statsPage "5") 0 0 1 (by decide) (by decide) (by decide) (by decide)
      (by decide)).2.1⟩

/-! ## Stagger observer: lemmas -/

theorem staggerTimeouts_length (G : Nat) (items : List Nat) :
    (staggerTimeouts G items).length = items.length := by
  simp [staggerTimeouts, List.enum_length]

theorem staggerTimeouts_getElem? (G : Nat) (items : List Nat) (i : Nat) :
    (staggerTimeouts G items)[i]?
      = items[i]?.map (fun item => { group := G, item := item, index := i, delay := i * 100 }) := by
  unfold staggerTimeouts
  rw [List.getElem?_map, List.getElem?_enum]
  cases items[i]? <;> rfl

theorem reveal_item (t : Timeout) (r : Page) :
    "fade-in-up" ∈ ((reveal t r).elems t.item).classList ∧
    ((reveal t r).elems t.item).animationDelay = some (CssTime.seconds ((t.index : ℚ) * 0.1)) := by
  unfold reveal
  simp only [setElem_elems, if_true]
  exact ⟨mem_addToken.mpr (Or.inl rfl), trivial⟩

/-- C7. Stagger schedule: when a group triggers, the stagger observer
registers for its child at 0-based index `i` one timer with delay `i * 100`
ms whose callback adds the class `fade-in-up` and sets the animation delay to
`i * 0.1` seconds; the timer of child `i` is due strictly before the timer of
child `i + 1`; for three children the delays are 0, 100, 200 ms and the
style delays 0 s, 0.1 s, 0.2 s. -/
theorem stagger_schedule (p : Page) (G : Nat) :
    (staggerDispatch p ⟨G, true⟩).timeouts
      = p.timeouts ++ staggerTimeouts G (querySelectorAll p G staggerClasses) ∧
    (∀ items : List Nat, (staggerTimeouts G items).length = items.length) ∧
    (∀ (items : List Nat) (i item : Nat), items[i]? = some item →
      (staggerTimeouts G items)[i]?
        = some { group := G, item := item, index := i, delay := i * 100 } ∧
      ∀ r : Page,
        "fade-in-up" ∈
          ((reveal { group := G, item := item, index := i, delay := i * 100 } r).elems
            item).classList ∧
        ((reveal { group := G, item := item, index := i, delay := i * 100 } r).elems
            item).animationDelay = some (CssTime.seconds ((i : ℚ) * 0.1))) ∧
    (∀ (items : List Nat) (i : Nat) (t1 t2 : Timeout),
      (staggerTimeouts G items)[i]? = some t1 → (staggerTimeouts G items)[i + 1]? = some t2 →
      t1.delay < t2.delay) ∧
    (∀ a b c : Nat,
      staggerTimeouts G [a, b, c]
        = [{ group := G, item := a, index := 0, delay := 0 },
           { group := G, item := b, index := 1, delay := 100 },
           { group := G, item := c, index := 2, delay := 200 }] ∧
      ∀ r : Page,
        ((reveal { group := G, item := a, index := 0, delay := 0 } r).elems a).animationDelay
          = some (CssTime.seconds 0) ∧
        ((reveal { group := G, item := b, index := 1, delay := 100 } r).elems b).animationDelay
          = some (CssTime.seconds 0.1) ∧
        ((reveal { group := G, item := c, index := 2, delay := 200 } r).elems c).animationDelay
          = some (CssTime.seconds 0.2)) := by
  refine ⟨rfl, staggerTimeouts_length G, ?_, ?_, ?_⟩
  · intro items i item hi
    refine ⟨?_, fun r => reveal_item _ r⟩
    rw [staggerTimeouts_getElem?, hi]
    rfl
  · intro items i t1 t2 h1 h2
    rw [staggerTimeouts_getElem?] at h1 h2
    cases hi : items[i]? with
    | none => rw [hi] at h1; cases h1
    | some x =>
      cases hj : items[i + 1]? with
      | none => rw [hj] at h2; cases h2
      | some y =>
        rw [hi] at h1
        rw [hj] at h2
        cases h1
        cases h2
        show i * 100 < (i + 1) * 100
        omega
  · intro a b c
    refine ⟨rfl, fun r => ⟨?_, ?_, ?_⟩⟩
    · rw [(reveal_item _ r).2]; norm_num
    · rw [(reveal_item _ r).2]; norm_num
    · rw [(reveal_item _ r).2]; norm_num

/-- Witness of C7 on a grid with three cards: the timers registered at the
trigger. -/
theorem stagger_schedule_witness :
    (staggerDispatch (domContentLoaded gridPage) ⟨0, true⟩).timeouts
      = [{ group := 0, item := 1, index := 0, delay := 0 },
         { group := 0, item := 2, index := 1, delay := 100 },
         { group := 0, item := 3, index := 2, delay := 200 }] := by
  rw [(stagger_schedule (domContentLoaded gridPage) 0).1]
  decide

/-! ## Stagger observer, once per group: lemmas -/

theorem mem_staggerTimeouts_group {G : Nat} {items : List Nat} {t : Timeout}
    (h : t ∈ staggerTimeouts G items) : t.group = G := by
  unfold staggerTimeouts at h
  rw [List.mem_map] at h
  obtain ⟨x, _, rfl⟩ := h
  rfl

theorem countP_enumFrom_index (G i : Nat) (items : List Nat) :
    ∀ n : Nat,
      ((items.enumFrom n).map
          (fun x => ({ group := G, item := x.2, index := x.1, delay := x.1 * 100 } : Timeout))).countP
          (fun t => t.group = G ∧ t.index = i) ≤ 1 ∧
      (i < n →
        ((items.enumFrom n).map
          (fun x => ({ group := G, item := x.2, index := x.1, delay := x.1 * 100 } : Timeout))).countP
          (fun t => t.group = G ∧ t.index = i) = 0) := by
  induction items with
  | nil => intro n; simp
  | cons a rest ih =>
    intro n
    obtain ⟨h1, h2⟩ := ih (n + 1)
    simp only [List.enumFrom_cons, List.map_cons, List.countP_cons]
    by_cases hn : n = i
    · subst hn
      have h0 := h2 (Nat.lt_succ_self n)
      rw [h0]
      simp
    · have hf : ¬ (decide (True ∧ n = i) = true) := by simp [hn]
      constructor
      · rw [if_neg hf]
        exact h1
      · intro hlt
        rw [h2 (by omega), if_neg hf]

theorem scheduledCount_staggerTimeouts (G i : Nat) (items : List Nat) :
    (staggerTimeouts G items).countP (fun t => t.group = G ∧ t.index = i) ≤ 1 := by
  unfold staggerTimeouts List.enum
  exact (countP_enumFrom_index G i items 0).1

theorem countP_group_eq_zero {G i : Nat} {l : List Timeout} (h : ∀ t ∈ l, t.group ≠ G) :
    l.countP (fun t => t.group = G ∧ t.index = i) = 0 := by
  rw [List.countP_eq_zero]
  intro t ht
  simp [h t ht]

theorem mem_unobserve {x target : Nat} {targets : List Nat} :
    x ∈ unobserve target targets ↔ x ∈ targets ∧ x ≠ target := by
  simp [unobserve, List.mem_filter]

theorem staggerDispatch_unobserved (q : Page) (e : Entry) (G : Nat)
    (h : G ∉ q.staggerObserved) : G ∉ (staggerDispatch q e).staggerObserved := by
  unfold staggerDispatch
  split_ifs
  · simp only
    intro hm
    exact h (mem_unobserve.mp hm).1
  · exact h

theorem staggerDispatch_guard (G : Nat) (q : Page) (e : Entry)
    (h : G ∈ q.staggerObserved → ∀ t ∈ q.timeouts, t.group ≠ G) :
    G ∈ (staggerDispatch q e).staggerObserved →
      ∀ t ∈ (staggerDispatch q e).timeouts, t.group ≠ G := by
  unfold staggerDispatch
  split_ifs with hi
  · simp only
    intro hm t ht
    obtain ⟨hm1, hm2⟩ := mem_unobserve.mp hm
    rcases List.mem_append.mp ht with ht | ht
    · exact h hm1 t ht
    · rw [mem_staggerTimeouts_group ht]
      exact fun hc => hm2 hc.symm
  · exact h

theorem staggerCallback_guard (G : Nat) (entries : List Entry) (q : Page)
    (h : G ∈ q.staggerObserved → ∀ t ∈ q.timeouts, t.group ≠ G) :
    G ∈ (staggerCallback entries q).staggerObserved →
      ∀ t ∈ (staggerCallback entries q).timeouts, t.group ≠ G := by
  unfold staggerCallback
  induction entries generalizing q with
  | nil => exact h
  | cons e rest ih => exact ih (staggerDispatch q e) (staggerDispatch_guard G q e h)

theorem staggerCallback_count (G : Nat) (entries : List Entry) (q : Page)
    (hcount : ∀ i, scheduledCount q G i ≤ 1)
    (hpending : (∃ e ∈ entries, e.isIntersecting = true ∧ e.target = G) →
      ∀ t ∈ q.timeouts, t.group ≠ G)
    (hsingle : singleReportBatch entries) :
    ∀ i, scheduledCount (staggerCallback entries q) G i ≤ 1 := by
  unfold staggerCallback
  induction entries generalizing q with
  | nil => exact hcount
  | cons e rest ih =>
    rw [List.foldl_cons]
    by_cases hi : e.isIntersecting = true
    · have hs : e.target ∉ (rest.filter (fun e => e.isIntersecting)).map (fun e => e.target) ∧
          singleReportBatch rest := by
        unfold singleReportBatch at hsingle ⊢
        rw [List.filter_cons_of_pos (by simpa using hi), List.map_cons, List.nodup_cons]
          at hsingle
        exact hsingle
      have hq : (staggerDispatch q e).timeouts
          = q.timeouts ++ staggerTimeouts e.target (querySelectorAll q e.target staggerClasses) := by
        simp [staggerDispatch, hi]
      by_cases hG : e.target = G
      · apply ih
        · intro i
          unfold scheduledCount
          rw [hq, List.countP_append,
            countP_group_eq_zero (hpending ⟨e, List.mem_cons_self _ _, hi, hG⟩), hG]
          simpa using scheduledCount_staggerTimeouts G i _
        · rintro ⟨e2, he2, hi2, hG2⟩
          exfalso
          apply hs.1
          rw [List.mem_map]
          exact ⟨e2, List.mem_filter.mpr ⟨he2, by simpa using hi2⟩, by rw [hG2, hG]⟩
        · exact hs.2
      · have hnew : ∀ t ∈ staggerTimeouts e.target (querySelectorAll q e.target staggerClasses),
            t.group ≠ G := by
          intro t ht
          rw [mem_staggerTimeouts_group ht]
          exact hG
        apply ih
        · intro i
          unfold scheduledCount
          rw [hq, List.countP_append, countP_group_eq_zero hnew]
          exact hcount i
        · rintro ⟨e2, he2, hi2, hG2⟩ t ht
          rw [hq] at ht
          rcases List.mem_append.mp ht with ht | ht
          · exact hpending ⟨e2, List.mem_cons_of_mem _ he2, hi2, hG2⟩ t ht
          · exact hnew t ht
        · exact hs.2
    · have hq : staggerDispatch q e = q := by
        simp [staggerDispatch, hi]
      rw [hq]
      apply ih q hcount
      · rintro ⟨e2, he2, hi2, hG2⟩
        exact hpending ⟨e2, List.mem_cons_of_mem _ he2, hi2, hG2⟩
      · unfold singleReportBatch at hsingle ⊢
        rw [List.filter_cons_of_neg (by simpa using hi)] at hsingle
        exact hsingle

theorem staggerBatches_invariant (G : Nat) (batches : List (List Entry)) :
    ∀ p : Page,
      (∀ i, scheduledCount p G i ≤ 1) →
      (G ∈ p.staggerObserved → ∀ t ∈ p.timeouts, t.group ≠ G) →
      observedBatches p batches →
      (∀ b ∈ batches, singleReportBatch b) →
      (∀ i, scheduledCount (staggerBatches batches p) G i ≤ 1) ∧
      (G ∈ (staggerBatches batches p).staggerObserved →
        ∀ t ∈ (staggerBatches batches p).timeouts, t.group ≠ G) := by
  induction batches with
  | nil => intro p hc hg _ _; exact ⟨hc, hg⟩
  | cons b rest ih =>
    intro p hc hg hobs hsingle
    obtain ⟨hob, hrest⟩ := hobs
    apply ih (staggerCallback b p)
    · apply staggerCallback_count G b p hc
      · rintro ⟨e, he, _, hG⟩
        exact hg (by rw [← hG]; exact hob e he)
      · exact hsingle b (List.mem_cons_self _ _)
    · exact staggerCallback_guard G b p hg
    · exact hrest
    · intro b2 hb2
      exact hsingle b2 (List.mem_cons_of_mem _ hb2)

/-- C10, as stated, fails: a batch that reports the observed group 0 twice as
intersecting registers the timers of its children twice. -/
theorem stagger_once_counterexample :
    observedBatch (domContentLoaded gridPage) [⟨0, true⟩, ⟨0, true⟩] ∧
    (domContentLoaded gridPage).timeouts = [] ∧
    scheduledCount (staggerCallback [⟨0, true⟩, ⟨0, true⟩] (domContentLoaded gridPage)) 0 0 = 2 ∧
    (staggerCallback [⟨0, true⟩, ⟨0, true⟩] (domContentLoaded gridPage)).timeouts
      = [⟨0, 1, 0, 0⟩, ⟨0, 2, 1, 100⟩, ⟨0, 3, 2, 200⟩,
         ⟨0, 1, 0, 0⟩, ⟨0, 2, 1, 100⟩, ⟨0, 3, 2, 200⟩] := by
  refine ⟨?_, by decide, by decide, by decide⟩
  unfold observedBatch
  decide

/-- C10, amended: for every group `G` with no timer registered yet and every
sequence of batches delivered to the stagger observer, each batch reporting
only groups observed at its delivery and holding at most one intersecting
report per group, every child of `G` is scheduled at most once in total; an
intersecting report removes `G` from the observed set, where it never
returns, and once timers of `G` exist `G` is not observed. -/
theorem stagger_once (p : Page) (G : Nat) (batches : List (List Entry))
    (hfresh : ∀ t ∈ p.timeouts, t.group ≠ G)
    (hobserved : observedBatches p batches)
    (hsingle : ∀ b ∈ batches, singleReportBatch b) :
    (∀ i, scheduledCount (staggerBatches batches p) G i ≤ 1) ∧
    (∀ q : Page, G ∉ (staggerDispatch q ⟨G, true⟩).staggerObserved) ∧
    (∀ (q : Page) (e : Entry), G ∉ q.staggerObserved →
      G ∉ (staggerDispatch q e).staggerObserved) ∧
    ((∃ t ∈ (staggerBatches batches p).timeouts, t.group = G) →
      G ∉ (staggerBatches batches p).staggerObserved) := by
  have hinv := staggerBatches_invariant G batches p
    (fun i => by
      unfold scheduledCount
      rw [countP_group_eq_zero hfresh]
      exact Nat.zero_le 1)
    (fun _ => hfresh) hobserved hsingle
  refine ⟨hinv.1, ?_, fun q e h => staggerDispatch_unobserved q e G h, ?_⟩
  · intro q hm
    simp only [staggerDispatch, if_true] at hm
    exact (mem_unobserve.mp hm).2 rfl
  · rintro ⟨t, ht, hG⟩ hm
    exact hinv.2 hm t ht hG

/-- Witness of the amended C10: one batch with one intersecting report for
the grid of `gridPage`. -/
theorem stagger_once_witness :
    scheduledCount (staggerBatches [[⟨0, true⟩]] (domContentLoaded gridPage)) 0 0 ≤ 1 ∧
    0 ∉ (staggerBatches [[⟨0, true⟩]] (domContentLoaded gridPage)).staggerObserved :=
  ⟨(stagger_once (domContentLoaded gridPage) 0 [[⟨0, true⟩]]
      (by decide)
      ⟨by unfold observedBatch; decide, trivial⟩
      (by unfold singleReportBatch; decide)).1 0,
   (stagger_once (domContentLoaded gridPage) 0 [[⟨0, true⟩]]
      (by decide)
      ⟨by unfold observedBatch; decide, trivial⟩
      (by unfold singleReportBatch; decide)).2.2.2 ⟨⟨0, 1, 0, 0⟩, by decide, rfl⟩⟩

/-! ## Page load and the typing branch: lemmas -/

theorem foldl_registerAnimated_ids (l : List Nat) (p : Page) :
    (l.foldl registerAnimated p).ids = p.ids := by
  induction l generalizing p with
  | nil => rfl
  | cons a rest ih => rw [List.foldl_cons, ih]; rfl

theorem foldl_registerAnimated_typing (l : List Nat) (p : Page) (x : Nat) :
    ((l.foldl registerAnimated p).elems x).typing = (p.elems x).typing := by
  induction l generalizing p with
  | nil => rfl
  | cons a rest ih =>
    rw [List.foldl_cons, ih]
    unfold registerAnimated
    simp only [setElem_elems]
    split_ifs with h
    · rw [h]
    · rfl

theorem foldl_registerGrid_ids (l : List Nat) (p : Page) :
    (l.foldl registerGrid p).ids = p.ids := by
  induction l generalizing p with
  | nil => rfl
  | cons a rest ih => rw [List.foldl_cons, ih]; rfl

theorem foldl_registerGrid_elems (l : List Nat) (p : Page) :
    (l.foldl registerGrid p).elems = p.elems := by
  induction l generalizing p with
  | nil => rfl
  | cons a rest ih => rw [List.foldl_cons, ih]; rfl

theorem registerTyping_text (p : Page) (id x : Nat)
    (h : x = id ∨ (p.elems x).textContent = "") :
    ((registerTyping p id).elems x).textContent = "" := by
  unfold registerTyping
  simp only [setElem_elems]
  split_ifs with hx
  · rfl
  · rcases h with h | h
    · exact absurd h hx
    · exact h

theorem foldl_registerTyping_text (l : List Nat) (p : Page) (x : Nat)
    (h : x ∈ l ∨ (p.elems x).textContent = "") :
    ((l.foldl registerTyping p).elems x).textContent = "" := by
  induction l generalizing p with
  | nil =>
    rcases h with h | h
    · cases h
    · exact h
  | cons a rest ih =>
    rw [List.foldl_cons]
    apply ih
    rcases h with h | h
    · rcases List.mem_cons.mp h with h | h
      · exact Or.inr (registerTyping_text p a x (Or.inl h))
      · exact Or.inl h
    · exact Or.inr (registerTyping_text p a x (Or.inr h))

theorem domContentLoaded_clears (p : Page) (id : Nat) (hid : id ∈ p.ids)
    (htyping : (p.elems id).typing.isSome = true) :
    ((domContentLoaded p).elems id).textContent = "" := by
  unfold domContentLoaded
  simp only
  apply foldl_registerTyping_text
  left
  rw [List.mem_filter]
  refine ⟨?_, ?_⟩
  · rw [foldl_registerGrid_ids, foldl_registerAnimated_ids]
    exact hid
  · rw [foldl_registerGrid_elems, foldl_registerAnimated_typing]
    exact htyping

/-- C5 fails on the code: an element with `data-typing="true"` and the text
`"Hi"` at page load is registered with its text cleared, the local copy of
the text being dropped, so that its first intersecting report hands the
empty string, not `"Hi"`, to `typeWriter`. -/
theorem typing_snapshot_lost :
    ((typingPage "true" "Hi").elems 0).textContent = "Hi" ∧
    (domContentLoaded (typingPage "true" "Hi")).observed = [0] ∧
    ((domContentLoaded (typingPage "true" "Hi")).elems 0).textContent = "" ∧
    (observerCallback [⟨0, true⟩] (domContentLoaded (typingPage "true" "Hi"))).page.calls
      = [Call.typeWriter 0 "" 50] ∧
    ((observerCallback [⟨0, true⟩] (domContentLoaded (typingPage "true" "Hi"))).page.elems
      0).textContent = "" := by
  decide

/-- C9 fails on the code: an element with the bare attribute `data-typing`
(empty value) is selected by `[data-typing]` at page load, loses its text and
is observed, but its first intersecting report starts no typewriter. -/
theorem bare_typing_attribute_ignored :
    ((typingPage "" "Hi").elems 0).typing = some "" ∧
    (domContentLoaded (typingPage "" "Hi")).observed = [0] ∧
    ((domContentLoaded (typingPage "" "Hi")).elems 0).textContent = "" ∧
    (observerCallback [⟨0, true⟩] (domContentLoaded (typingPage "" "Hi"))).threw = false ∧
    (observerCallback [⟨0, true⟩] (domContentLoaded (typingPage "" "Hi"))).page.calls = [] ∧
    ((observerCallback [⟨0, true⟩] (domContentLoaded (typingPage "" "Hi"))).page.elems
      0).textContent = "" ∧
    "animated" ∈ ((observerCallback [⟨0, true⟩]
      (domContentLoaded (typingPage "" "Hi"))).page.elems 0).classList := by
  decide

end Script
